import Mathlib

/-!
Shallow embedding of `bmp.h` (BMP codec + raster drawing toolkit).

Conventions of the embedding:
* Bytes are `Nat` values (always < 256 when produced by the code).
* C++ `uint32_t` arithmetic that can wrap is modelled with an explicit
  `% 2 ^ 32`; `int32_t` quantities are `Int`.
* Every `std::cerr` diagnostic of the source is modelled as a `Warn` value
  collected in a list; the source never aborts after printing a diagnostic,
  and neither does the model.
* Stream reads are modelled on a `List Nat` of file bytes; a read past the
  end of the byte list makes the decoder return `none` (in C++ the stream
  would enter a fail state and leave garbage in the destination).
-/

/-- Diagnostics printed to `std::cerr` by the source, as tags. -/
inductive Warn where
  | BadMagic
  | MissingColorMask
  | BadColorMask
  | BadColorSpace
  | NegativeHeight
  | InvalidDimensions
  | InvalidWeights
  | NoAlphaChannel
  deriving DecidableEq, Repr

/-- `struct Color` of the source: four 8-bit channels, alpha defaulting
to 255 in the constructor. Fields are `Nat`s standing for `uint8_t`. -/
structure Color where
  r : Nat
  g : Nat
  b : Nat
  alpha : Nat := 255
  deriving DecidableEq, Repr

/-- `struct BMPFileHeader` (packed, 14 bytes on disk). -/
structure BMPFileHeaderS where
  file_type : Nat
  file_size : Nat
  reserved1 : Nat
  reserved2 : Nat
  offset_data : Nat
  deriving DecidableEq, Repr

/-- `struct BMPInfoHeader` (packed, 40 bytes on disk). -/
structure BMPInfoHeaderS where
  size : Nat
  width : Int
  height : Int
  planes : Nat
  bit_count : Nat
  compression : Nat
  size_image : Nat
  x_pixels_per_meter : Int
  y_pixels_per_meter : Int
  colors_used : Nat
  colors_important : Nat
  deriving DecidableEq, Repr

/-- `struct BMPColorHeader` (packed, 84 bytes on disk). -/
structure BMPColorHeaderS where
  red_mask : Nat
  green_mask : Nat
  blue_mask : Nat
  alpha_mask : Nat
  color_space_type : Nat
  unused : List Nat
  deriving DecidableEq, Repr

/-- Default member initializers of `BMPColorHeader`. -/
def defaultColorHeader : BMPColorHeaderS :=
  ⟨0x00ff0000, 0x0000ff00, 0x000000ff, 0xff000000, 0x73524742, List.replicate 16 0⟩

/-- Default member initializers of `BMPFileHeader`. -/
def defaultFileHeader : BMPFileHeaderS := ⟨0x4D42, 0, 0, 0, 0⟩

/-- Default member initializers of `BMPInfoHeader` (`planes{1}`). -/
def defaultInfoHeader : BMPInfoHeaderS := ⟨0, 0, 0, 1, 0, 0, 0, 0, 0, 0, 0⟩

/-- The member state of `class BMP`. -/
structure BMP where
  file_header : BMPFileHeaderS
  bmp_info_header : BMPInfoHeaderS
  bmp_color_header : BMPColorHeaderS
  data : List Nat
  channels : Nat
  row_stride : Nat
  deriving DecidableEq, Repr

/-! ### Little-endian byte serialization (packed struct layout) -/

/-- Two little-endian bytes of a `uint16_t`. -/
def u16le (n : Nat) : List Nat := [n % 2 ^ 8, n / 2 ^ 8 % 2 ^ 8]

/-- Four little-endian bytes of a `uint32_t`. -/
def u32le (n : Nat) : List Nat :=
  [n % 2 ^ 8, n / 2 ^ 8 % 2 ^ 8, n / 2 ^ 16 % 2 ^ 8, n / 2 ^ 24 % 2 ^ 8]

/-- Four little-endian bytes of an `int32_t` (two's complement). -/
def i32le (n : Int) : List Nat := u32le (n % 2 ^ 32).toNat

/-- Byte `p` of a byte list (reads of the code never go out of range). -/
def byteAt (l : List Nat) (p : Nat) : Nat := l.getD p 0

/-- Read a little-endian `uint16_t` at offset `p`. -/
def rdU16 (l : List Nat) (p : Nat) : Nat := byteAt l p + 2 ^ 8 * byteAt l (p + 1)

/-- Read a little-endian `uint32_t` at offset `p`. -/
def rdU32 (l : List Nat) (p : Nat) : Nat :=
  byteAt l p + 2 ^ 8 * byteAt l (p + 1) + 2 ^ 16 * byteAt l (p + 2) + 2 ^ 24 * byteAt l (p + 3)

/-- Read a little-endian `int32_t` at offset `p` (two's complement). -/
def rdI32 (l : List Nat) (p : Nat) : Int :=
  let u := rdU32 l p
  if u < 2 ^ 31 then (u : Int) else (u : Int) - 2 ^ 32

/-- On-disk bytes of `BMPFileHeader` (14 bytes, packed, little endian). -/
def fileHeaderBytes (fh : BMPFileHeaderS) : List Nat :=
  u16le fh.file_type ++ u32le fh.file_size ++ u16le fh.reserved1 ++
    u16le fh.reserved2 ++ u32le fh.offset_data

/-- On-disk bytes of `BMPInfoHeader` (40 bytes, packed, little endian). -/
def infoHeaderBytes (ih : BMPInfoHeaderS) : List Nat :=
  u32le ih.size ++ i32le ih.width ++ i32le ih.height ++ u16le ih.planes ++
    u16le ih.bit_count ++ u32le ih.compression ++ u32le ih.size_image ++
    i32le ih.x_pixels_per_meter ++ i32le ih.y_pixels_per_meter ++
    u32le ih.colors_used ++ u32le ih.colors_important

/-- On-disk bytes of `BMPColorHeader` (84 bytes, packed, little endian). -/
def colorHeaderBytes (ch : BMPColorHeaderS) : List Nat :=
  u32le ch.red_mask ++ u32le ch.green_mask ++ u32le ch.blue_mask ++
    u32le ch.alpha_mask ++ u32le ch.color_space_type ++ ch.unused.flatMap u32le

/-- Field-by-field parse of the 14 `BMPFileHeader` bytes
(`inp.read((char*)&file_header, sizeof(file_header))` on the packed struct). -/
def parseFileHeader (b : List Nat) : BMPFileHeaderS :=
  ⟨rdU16 b 0, rdU32 b 2, rdU16 b 6, rdU16 b 8, rdU32 b 10⟩

/-- Field-by-field parse of the 40 `BMPInfoHeader` bytes. -/
def parseInfoHeader (b : List Nat) : BMPInfoHeaderS :=
  ⟨rdU32 b 0, rdI32 b 4, rdI32 b 8, rdU16 b 12, rdU16 b 14, rdU32 b 16,
    rdU32 b 20, rdI32 b 24, rdI32 b 28, rdU32 b 32, rdU32 b 36⟩

/-- Field-by-field parse of the 84 `BMPColorHeader` bytes. -/
def parseColorHeader (b : List Nat) : BMPColorHeaderS :=
  ⟨rdU32 b 0, rdU32 b 4, rdU32 b 8, rdU32 b 12, rdU32 b 16,
    (List.range 16).map fun i => rdU32 b (20 + 4 * i)⟩

/-- `make_stride_aligned(align_stride)`: the while loop adds 1 to
`row_stride` until it is divisible by `align_stride`; this is its closed
form (smallest multiple of `align` that is `≥ rs`). -/
def make_stride_aligned (rs align : Nat) : Nat := rs + (align - rs % align) % align

/-- `check_color_header`: compares the parsed masks and color space with the
expected constants, emitting the two possible diagnostics. -/
def check_color_header (ch : BMPColorHeaderS) : List Warn :=
  (if defaultColorHeader.red_mask ≠ ch.red_mask ∨
      defaultColorHeader.blue_mask ≠ ch.blue_mask ∨
      defaultColorHeader.green_mask ≠ ch.green_mask ∨
      defaultColorHeader.alpha_mask ≠ ch.alpha_mask then [Warn.BadColorMask] else []) ++
  (if defaultColorHeader.color_space_type ≠ ch.color_space_type then [Warn.BadColorSpace] else [])

/-- `BMP::BMP(int32_t width, int32_t height, bool has_alpha)`.
The source prints a diagnostic when `width ≤ 0 ∨ height ≤ 0` and then runs
the rest of the constructor body unconditionally.  `row_stride` is a
`uint32_t`, so `width * 4` (resp. `width * 3`) wraps modulo `2 ^ 32`, as does
the `row_stride * height` argument of `data.resize` and the `file_size`
bookkeeping. -/
def mkBMP (width height : Int) (has_alpha : Bool) : List Warn × BMP :=
  let warns := if width ≤ 0 ∨ height ≤ 0 then [Warn.InvalidDimensions] else []
  let h32 : Nat := (height % 2 ^ 32).toNat
  if has_alpha then
    let row_stride : Nat := (width * 4 % 2 ^ 32).toNat
    let n : Nat := row_stride * h32 % 2 ^ 32
    let offset : Nat := 14 + 40 + 84
    (warns,
      { file_header := { defaultFileHeader with
          offset_data := offset, file_size := (offset + n) % 2 ^ 32 }
        bmp_info_header := { defaultInfoHeader with
          width := width, height := height, size := 40 + 84,
          bit_count := 32, compression := 3 }
        bmp_color_header := defaultColorHeader
        data := List.replicate n 0
        channels := 32 / 8
        row_stride := row_stride })
  else
    let row_stride : Nat := (width * 3 % 2 ^ 32).toNat
    let n : Nat := row_stride * h32 % 2 ^ 32
    let offset : Nat := 14 + 40
    let new_stride : Nat := make_stride_aligned row_stride 4
    (warns,
      { file_header := { defaultFileHeader with
          offset_data := offset,
          file_size := (offset + n + h32 * (new_stride - row_stride) % 2 ^ 32) % 2 ^ 32 }
        bmp_info_header := { defaultInfoHeader with
          width := width, height := height, size := 40,
          bit_count := 24, compression := 0 }
        bmp_color_header := defaultColorHeader
        data := List.replicate n 0
        channels := 24 / 8
        row_stride := row_stride })

/-- `BMP::getPixel(x, y)`.  `pos` is `uint32_t` arithmetic.  (The source
also prints an out-of-range diagnostic and proceeds regardless; the
diagnostic does not influence the returned color.) -/
def BMP.getPixel (s : BMP) (x y : Nat) : Color :=
  let pos := s.channels * (y * s.bmp_info_header.width.toNat + x) % 2 ^ 32
  let c : Color := { r := byteAt s.data (pos + 2), g := byteAt s.data (pos + 1),
                     b := byteAt s.data pos }
  if s.channels = 4 then { c with alpha := byteAt s.data (pos + 3) } else c

/-- `BMP::setPixel(x, y, c)`: writes blue, green, red at `pos`, `pos+1`,
`pos+2` and, when `channels == 4`, alpha at `pos+3`. -/
def BMP.setPixel (s : BMP) (x y : Nat) (c : Color) : BMP :=
  let pos := s.channels * (y * s.bmp_info_header.width.toNat + x) % 2 ^ 32
  let d := ((s.data.set pos c.b).set (pos + 1) c.g).set (pos + 2) c.r
  { s with data := if s.channels = 4 then d.set (pos + 3) c.alpha else d }

/-! ### Decoder (`BMP::read`) and encoder (`BMP::write`) -/

/-- The pixel-reading loop of `BMP::read` for widths that are not a
multiple of 4: row `y` (`row_stride` bytes, read at stream position
`start + y * (row_stride + pad)`) is appended to the buffer, and the `pad`
padding bytes that follow it in the file are read and discarded. Returns
`none` when a row read would run past the end of the file bytes. -/
def readRows (bytes : List Nat) (start rs pad : Nat) : Nat → Option (List Nat)
  | 0 => some []
  | y + 1 =>
    match readRows bytes start rs pad y with
    | none => none
    | some acc =>
      if start + y * (rs + pad) + (rs + pad) ≤ bytes.length then
        some (acc ++ (bytes.drop (start + y * (rs + pad))).take rs)
      else none

/-- The pixel-writing loop of `BMP::write` for 24-bit images whose width is
not a multiple of 4: row `y` is the `rs` buffer bytes at offset `rs * y`,
followed by `pad` zero padding bytes. -/
def writeRows (d : List Nat) (rs pad : Nat) : Nat → List Nat
  | 0 => []
  | y + 1 => writeRows d rs pad y ++ ((d.drop (rs * y)).take rs ++ List.replicate pad 0)

/-- `BMP::read(fname)`, on the byte contents of the file.

Faithful to the source's control flow: a bad magic number, a missing color
mask, unexpected masks / color space and a negative height each produce a
diagnostic (`Warn`) and decoding *continues*.  The header fields are then
normalized to the canonical values for the bit depth, the stream is
positioned at the `offset_data` read from the file, and the pixel buffer is
read (row-padded when `width % 4 ≠ 0`).  `none` models a C++ stream
entering a fail state on a short read.  The `data.resize` argument
`width * height * bit_count / 8` is `int` arithmetic in the source; it is
modelled exactly (images in the claims keep it within `int` range). -/
def BMP.read (bytes : List Nat) : Option (List Warn × BMP) :=
  if 14 + 40 ≤ bytes.length then
    let fh := parseFileHeader (bytes.take 14)
    let magicWarns := if fh.file_type ≠ 0x4D42 then [Warn.BadMagic] else []
    let ih := parseInfoHeader ((bytes.drop 14).take 40)
    let colorStep : Option (List Warn × BMPColorHeaderS) :=
      if ih.bit_count = 32 then
        if 40 + 84 ≤ ih.size then
          if 14 + 40 + 84 ≤ bytes.length then
            let ch := parseColorHeader ((bytes.drop (14 + 40)).take 84)
            some (check_color_header ch, ch)
          else none
        else some ([Warn.MissingColorMask], defaultColorHeader)
      else some ([], defaultColorHeader)
    match colorStep with
    | none => none
    | some (colorWarns, ch) =>
      let cursor := fh.offset_data
      let ih' := if ih.bit_count = 32 then { ih with size := 40 + 84 } else { ih with size := 40 }
      let fh' := if ih.bit_count = 32
        then { fh with offset_data := 14 + 40 + 84, file_size := 14 + 40 + 84 }
        else { fh with offset_data := 14 + 40, file_size := 14 + 40 }
      let heightWarns := if ih.height < 0 then [Warn.NegativeHeight] else []
      let dataSize : Nat := ((ih.width * ih.height * (ih.bit_count : Int)) / 8).toNat
      let warns := magicWarns ++ colorWarns ++ heightWarns
      if ih.width % 4 = 0 then
        if cursor + dataSize ≤ bytes.length then
          some (warns,
            { file_header := { fh' with file_size := (fh'.file_size + dataSize) % 2 ^ 32 }
              bmp_info_header := ih'
              bmp_color_header := ch
              data := (bytes.drop cursor).take dataSize
              channels := ih.bit_count / 8
              row_stride := 0 })
        else none
      else
        let rs : Nat := ((ih.width * (ih.bit_count : Int)) / 8).toNat
        let new_stride := make_stride_aligned rs 4
        let pad := new_stride - rs
        match readRows bytes cursor rs pad ih.height.toNat with
        | none => none
        | some d =>
          some (warns,
            { file_header := { fh' with
                file_size := (fh'.file_size + dataSize + ih.height.toNat * pad) % 2 ^ 32 }
              bmp_info_header := ih'
              bmp_color_header := ch
              data := d
              channels := ih.bit_count / 8
              row_stride := rs })
  else none

/-- `write_headers(of)`: file header, info header and, when
`bit_count == 32`, the color header. -/
def writeHeaders (s : BMP) : List Nat :=
  fileHeaderBytes s.file_header ++ infoHeaderBytes s.bmp_info_header ++
    (if s.bmp_info_header.bit_count = 32 then colorHeaderBytes s.bmp_color_header else [])

/-- `BMP::write(fname)`, as the byte contents written to the file.
For an unsupported bit depth the source only prints a diagnostic and the
opened file stays empty. -/
def BMP.write (s : BMP) : List Nat :=
  if s.bmp_info_header.bit_count = 32 then
    writeHeaders s ++ s.data
  else if s.bmp_info_header.bit_count = 24 then
    if s.bmp_info_header.width % 4 = 0 then
      writeHeaders s ++ s.data
    else
      let new_stride := make_stride_aligned s.row_stride 4
      writeHeaders s ++
        writeRows s.data s.row_stride (new_stride - s.row_stride) s.bmp_info_header.height.toNat
  else []

/-! ### Effects (`BlackWhite`, `FlipX`, `FlipY`) -/

/-- Body of the `BlackWhite` loops for one pixel: `grey` is
`data[pos]*b + data[pos+1]*g + data[pos+2]*r` computed in floating point
and truncated to `uint8_t`; the model computes it in `ℚ` and truncates
with `⌊·⌋.toNat` (for the weights used in the theorems below the `float`
computation is exact and the value is in `[0, 256)`, where the C++
conversion is this truncation). -/
def bwPix (r g b : ℚ) (ch w : Nat) (d : List Nat) (x y : Nat) : List Nat :=
  let pos := ch * (y * w + x) % 2 ^ 32
  let grey : Nat :=
    (⌊(byteAt d pos : ℚ) * b + (byteAt d (pos + 1) : ℚ) * g + (byteAt d (pos + 2) : ℚ) * r⌋).toNat
  ((d.set pos grey).set (pos + 1) grey).set (pos + 2) grey

/-- Inner (`x`) loop of `BlackWhite` for row `y`. -/
def bwInner (r g b : ℚ) (ch w y : Nat) (d : List Nat) : Nat → List Nat
  | 0 => d
  | x + 1 => bwPix r g b ch w (bwInner r g b ch w y d x) x y

/-- Outer (`y`) loop of `BlackWhite`. -/
def bwOuter (r g b : ℚ) (ch w : Nat) (d : List Nat) : Nat → List Nat
  | 0 => d
  | y + 1 => bwInner r g b ch w y (bwOuter r g b ch w d y) w

/-- `BMP::BlackWhite(r, g, b)` (defaults `0.33/0.33/0.33`): prints the
invalid-grey-scale diagnostic when `r + g + b > 1` and then runs the
transform loops unconditionally. -/
def BMP.BlackWhite (s : BMP) (r g b : ℚ) : List Warn × BMP :=
  (if 1 < r + g + b then [Warn.InvalidWeights] else [],
   { s with data := (bwOuter r g b s.channels s.bmp_info_header.width.toNat s.data
       s.bmp_info_header.height.toNat) })

/-- The pixel exchange shared by `FlipX` and `FlipY`: save the three color
bytes at `pos1`, copy the bytes at `pos2` over them, write the saved bytes
at `pos2`, and do the same for the alpha byte when `channels == 4`.
Reads and writes are sequenced exactly as in the source. -/
def swapPixel (ch : Nat) (d : List Nat) (pos1 pos2 : Nat) : List Nat :=
  let auxb := byteAt d pos1
  let auxg := byteAt d (pos1 + 1)
  let auxr := byteAt d (pos1 + 2)
  let d1 := d.set pos1 (byteAt d pos2)
  let d2 := d1.set (pos1 + 1) (byteAt d1 (pos2 + 1))
  let d3 := d2.set (pos1 + 2) (byteAt d2 (pos2 + 2))
  let d4 := ((d3.set pos2 auxb).set (pos2 + 1) auxg).set (pos2 + 2) auxr
  if ch = 4 then
    let auxa := byteAt d4 (pos1 + 3)
    (d4.set (pos1 + 3) (byteAt d4 (pos2 + 3))).set (pos2 + 3) auxa
  else d4

/-- Inner (`x < width / 2`) loop of `FlipX` for row `y`:
`pos1 = channels * (y * width + x)`,
`pos2 = channels * (y * width + width - 1 - x)` (`uint32_t` arithmetic). -/
def flipXInner (ch w y : Nat) (d : List Nat) : Nat → List Nat
  | 0 => d
  | x + 1 =>
    swapPixel ch (flipXInner ch w y d x)
      (ch * (y * w + x) % 2 ^ 32) (ch * (y * w + w - 1 - x) % 2 ^ 32)

/-- Outer (`y < height`) loop of `FlipX`. -/
def flipXOuter (ch w : Nat) (d : List Nat) : Nat → List Nat
  | 0 => d
  | y + 1 => flipXInner ch w y (flipXOuter ch w d y) (w / 2)

/-- `BMP::FlipX()`. -/
def BMP.FlipX (s : BMP) : BMP :=
  { s with data := (flipXOuter s.channels s.bmp_info_header.width.toNat s.data
      s.bmp_info_header.height.toNat) }

/-- Inner (`y < height / 2`) loop of `FlipY` for column `x`:
`pos1 = channels * (y * width + x)`,
`pos2 = channels * ((height - 1 - y) * width + x)`. -/
def flipYInner (ch w h x : Nat) (d : List Nat) : Nat → List Nat
  | 0 => d
  | y + 1 =>
    swapPixel ch (flipYInner ch w h x d y)
      (ch * (y * w + x) % 2 ^ 32) (ch * ((h - 1 - y) * w + x) % 2 ^ 32)

/-- Outer (`x < width`) loop of `FlipY`. -/
def flipYOuter (ch w h : Nat) (d : List Nat) : Nat → List Nat
  | 0 => d
  | x + 1 => flipYInner ch w h x (flipYOuter ch w h d x) (h / 2)

/-- `BMP::FlipY()`. -/
def BMP.FlipY (s : BMP) : BMP :=
  { s with data := (flipYOuter s.channels s.bmp_info_header.width.toNat
      s.bmp_info_header.height.toNat s.data s.bmp_info_header.width.toNat) }

/-! ### Drawer (`bmpDrawer`) -/

/-- The `while (e >= 0) { y1 += sy; e -= (dx << 1); }` inner loop of the
line algorithm.  The source's loop condition is just `e >= 0`; in the
general case of `drawLine` it is always called with `dx ≥ 1`, and the
`0 < dx` conjunct only makes the recursion terminate on parameters the
source never produces (for which the C++ loop would not terminate). -/
def ddaInner (dx sy y e : Int) : Int × Int :=
  if h : 0 ≤ e ∧ 0 < dx then ddaInner dx sy (y + sy) (e - 2 * dx) else (y, e)
  termination_by (e + 1).toNat
  decreasing_by omega

/-- The `for (i = 0; i < dx; ++i)` loop of the line algorithm, returning the
plotted coordinates in order: each step plots `(x1, y1)` — `(y1, x1)` when
`steep` — then runs the inner loop and advances `x1` by `sx` and `e` by
`2 * dy`. -/
def ddaLoop (steep : Bool) (sx sy dx dy : Int) : Nat → Int → Int → Int → List (Int × Int)
  | 0, _, _, _ => []
  | n + 1, x, y, e =>
    (if steep then ((y, x) : Int × Int) else (x, y)) ::
      (let p := ddaInner dx sy y e
       ddaLoop steep sx sy dx dy n (x + sx) p.1 (p.2 + 2 * dy))

/-- `bmpDrawer::drawLine(x1, y1, x2, y2, c)` as the ordered list of
coordinates passed to `drawPixel`.  Plotting a pixel never feeds back into
the loop state, so the pixel writes of `drawLine` are exactly
`setPixel` at these coordinates, in this order. -/
def drawLineTrace (x1 y1 x2 y2 : Int) : List (Int × Int) :=
  if x1 = x2 ∧ y1 = y2 then [(x1, y1)]
  else if y1 = y2 then
    let a := if x2 < x1 then x2 else x1
    let b := if x2 < x1 then x1 else x2
    (List.range (b - a).toNat).map (fun i : Nat => (a + (i : Int), y1))
  else if x1 = x2 then
    let a := if y2 < y1 then y2 else y1
    let b := if y2 < y1 then y1 else y2
    (List.range (b - a).toNat).map (fun i : Nat => (x1, a + (i : Int)))
  else
    let sx : Int := if 0 < x2 - x1 then 1 else -1
    let sy : Int := if 0 < y2 - y1 then 1 else -1
    let dx := |x2 - x1|
    let dy := |y2 - y1|
    (if dx < dy then
      ddaLoop true sy sx dy dx dy.toNat y1 x1 (2 * dx - dy)
    else
      ddaLoop false sx sy dx dy dx.toNat x1 y1 (2 * dy - dx)) ++ [(x2, y2)]

/-- `bmpDrawer::drawLine` acting on the image: `drawPixel` (that is,
`setPixel`) at each traced coordinate, in trace order. -/
def bmpDrawer.drawLine (s : BMP) (x1 y1 x2 y2 : Int) (c : Color) : BMP :=
  (drawLineTrace x1 y1 x2 y2).foldl (fun t p => t.setPixel p.1.toNat p.2.toNat c) s

/-- Inner (`xx`) loop of `bmpDrawer::eraseRegion`, writing
`Color(0, 0, 0, 0)` at `(x + n, yy)` for `n < w`. -/
def erInner (s : BMP) (x yy : Nat) : Nat → BMP
  | 0 => s
  | n + 1 => (erInner s x yy n).setPixel (x + n) yy ⟨0, 0, 0, 0⟩

/-- Outer (`yy`) loop of `bmpDrawer::eraseRegion`. -/
def erOuter (s : BMP) (x y w : Nat) : Nat → BMP
  | 0 => s
  | n + 1 => erInner (erOuter s x y w n) x (y + n) w

/-- `bmpDrawer::eraseRegion(x, y, w, h)`: prints the
only-for-32-bits diagnostic when `channels != 4` and then runs the erase
loops unconditionally. -/
def bmpDrawer.eraseRegion (s : BMP) (x y w h : Nat) : List Warn × BMP :=
  (if s.channels ≠ 4 then [Warn.NoAlphaChannel] else [], erOuter s x y w h)

/-! ### Canonical images and concrete fixtures -/

/-- A valid 24- or 32-bit in-memory image: header fields canonically
normalized exactly as construction (`BMP(w, h, has_alpha)` or a completed
`read`) leaves them, with dimensions in `int32_t` range and small enough
that none of the `int`/`uint32_t` size computations of the source wrap. -/
def Canonical (s : BMP) : Prop :=
  0 < s.bmp_info_header.width ∧ 0 < s.bmp_info_header.height ∧
  s.bmp_info_header.width < 2 ^ 31 ∧ s.bmp_info_header.height < 2 ^ 31 ∧
  s.bmp_info_header.width * s.bmp_info_header.height * (s.bmp_info_header.bit_count : Int)
    < 2 ^ 31 ∧
  s.file_header.file_type = 0x4D42 ∧ s.file_header.reserved1 = 0 ∧
  s.file_header.reserved2 = 0 ∧
  s.bmp_info_header.planes = 1 ∧ s.bmp_info_header.size_image = 0 ∧
  s.bmp_info_header.x_pixels_per_meter = 0 ∧ s.bmp_info_header.y_pixels_per_meter = 0 ∧
  s.bmp_info_header.colors_used = 0 ∧ s.bmp_info_header.colors_important = 0 ∧
  s.bmp_color_header = defaultColorHeader ∧
  s.channels = s.bmp_info_header.bit_count / 8 ∧
  s.row_stride = s.bmp_info_header.width.toNat * s.channels ∧
  s.data.length = s.bmp_info_header.width.toNat * s.bmp_info_header.height.toNat * s.channels ∧
  ((s.bmp_info_header.bit_count = 32 ∧ s.bmp_info_header.compression = 3 ∧
      s.bmp_info_header.size = 124 ∧ s.file_header.offset_data = 138 ∧
      s.file_header.file_size = 138 + s.data.length) ∨
   (s.bmp_info_header.bit_count = 24 ∧ s.bmp_info_header.compression = 0 ∧
      s.bmp_info_header.size = 40 ∧ s.file_header.offset_data = 54 ∧
      s.file_header.file_size = 54 + s.data.length +
        s.bmp_info_header.height.toNat *
          (make_stride_aligned s.row_stride 4 - s.row_stride)))

instance (s : BMP) : Decidable (Canonical s) := by
  unfold Canonical
  exact inferInstance

/-- A 1×1 24-bit image whose pixel buffer holds the bytes `d`
(blue, green, red). -/
def tiny24 (d : List Nat) : BMP :=
  { file_header := ⟨0x4D42, 58, 0, 0, 54⟩
    bmp_info_header := ⟨40, 1, 1, 1, 24, 0, 0, 0, 0, 0, 0⟩
    bmp_color_header := defaultColorHeader
    data := d
    channels := 3
    row_stride := 3 }

/-- A 3×2 32-bit image with distinct pixel bytes, used to witness the
flip-involution and set/get theorems on a concrete input. -/
def flipFixture : BMP := { (mkBMP 3 2 true).2 with data := List.range 24 }

/-- File bytes of a well-formed 1×1 24-bit BMP (one BGR pixel `9, 8, 7`
plus one padding byte) whose `file_type` field is `0`, not the "BM"
signature `0x4D42`. -/
def badMagicBytes : List Nat :=
  fileHeaderBytes ⟨0, 58, 0, 0, 54⟩ ++ infoHeaderBytes ⟨40, 1, 1, 1, 24, 0, 0, 0, 0, 0, 0⟩ ++
    [9, 8, 7, 0]

/-- The image `BMP::read` produces from `badMagicBytes` (decoding runs to
completion, pixel bytes included). -/
def badMagicResult : BMP :=
  { file_header := ⟨0, 58, 0, 0, 54⟩
    bmp_info_header := ⟨40, 1, 1, 1, 24, 0, 0, 0, 0, 0, 0⟩
    bmp_color_header := defaultColorHeader
    data := [9, 8, 7]
    channels := 3
    row_stride := 3 }

/-! ### Theorems -/

/-- C1: the claim says `Grayscale` with weights summing to more than 1.0 is
a hard failure (`InvalidWeights`) that leaves the pixel buffer unchanged.
The source prints the `InvalidWeights` diagnostic but does not return: at
the 1×1 24-bit image with bytes `[10, 10, 10]` and weights `1/2, 1/2, 1/2`
(sum `3/2 > 1`, exact in `float`), the transform still runs and rewrites
the buffer to `[15, 15, 15]`. -/
theorem blackWhite_invalid_weights_still_transforms :
    ((tiny24 [10, 10, 10]).BlackWhite (1 / 2) (1 / 2) (1 / 2)).1 = [Warn.InvalidWeights] ∧
      ((tiny24 [10, 10, 10]).BlackWhite (1 / 2) (1 / 2) (1 / 2)).2.data = [15, 15, 15] := by
  constructor
  · simp only [BMP.BlackWhite]
    norm_num
  · simp only [BMP.BlackWhite, tiny24]
    norm_num [bwOuter, bwInner, bwPix, byteAt]
    decide

/-- C2: the claim says `EraseRegion` on a 24-bit image reports
`NoAlphaChannel` and leaves the buffer byte-for-byte unmodified.  The
source prints the diagnostic but does not return: on the 1×1 24-bit image
with bytes `[1, 2, 3]`, `eraseRegion(0, 0, 1, 1)` still writes opaque
black, leaving the buffer `[0, 0, 0]`. -/
theorem eraseRegion_24bit_still_writes :
    (bmpDrawer.eraseRegion (tiny24 [1, 2, 3]) 0 0 1 1).1 = [Warn.NoAlphaChannel] ∧
      (bmpDrawer.eraseRegion (tiny24 [1, 2, 3]) 0 0 1 1).2.data = [0, 0, 0] := by
  decide

/-- C3: the claim says a non-"BM" magic makes `Decode` fail with `BadMagic`
and produce no image.  The source prints the unrecognized-format
diagnostic but does not return: on `badMagicBytes` (a well-formed 1×1
24-bit file whose type field is 0) decoding runs to completion and
produces a full `BMP` image including the pixel bytes `[9, 8, 7]`. -/
theorem read_badMagic_decodes_anyway :
    BMP.read badMagicBytes = some ([Warn.BadMagic], badMagicResult) := by
  decide

/-- C8: the claim says `Allocate` with nonpositive width or height fails
hard with `InvalidDimensions` and constructs no usable image.  The source
prints the diagnostic but does not return: `BMP(0, 1, true)` still runs the
whole constructor body and yields a fully-populated (degenerate) image
object. -/
theorem mkBMP_nonpositive_still_constructs :
    (mkBMP 0 1 true).1 = [Warn.InvalidDimensions] ∧
      (mkBMP 0 1 true).2.bmp_info_header.width = 0 ∧
      (mkBMP 0 1 true).2.bmp_info_header.bit_count = 32 ∧
      (mkBMP 0 1 true).2.file_header.offset_data = 138 ∧
      (mkBMP 0 1 true).2.data = [] := by
  decide

/-- C7 counterexample: `row_stride` is a `uint32_t`, so for
`width = 2 ^ 30` (a legal positive `int32_t`) `width * 4` wraps to 0 and
`BMP(2 ^ 30, 1, true)` allocates an empty buffer instead of one of
`2 ^ 30 * 1 * 4` bytes; the claim fails as stated for every width. -/
theorem mkBMP_width_overflow :
    ¬ (mkBMP (2 ^ 30) 1 true).2.data.length = 2 ^ 30 * 1 * 4 := by
  decide

/-- Reading a byte just written by `List.set`. -/
theorem byteAt_set_eq (l : List Nat) (i v : Nat) (h : i < l.length) :
    byteAt (l.set i v) i = v := by
  simp [byteAt, List.getD, List.getElem?_set_eq_of_lt, h]

/-- `List.set` leaves every other byte unchanged. -/
theorem byteAt_set_ne (l : List Nat) (i j v : Nat) (h : i ≠ j) :
    byteAt (l.set i v) j = byteAt l j := by
  simp [byteAt, List.getD, List.getElem?_set_ne h]

/-- The byte range of an in-bounds pixel lies inside a
`width * height * channels` buffer. -/
theorem pixpos_bound (ch wn hn x y : Nat) (hx : x < wn) (hy : y < hn) :
    ch * (y * wn + x) + ch ≤ wn * hn * ch := by
  have ha : y * wn + (x + 1) ≤ y * wn + wn := Nat.add_le_add_left hx ..
  have hb : y * wn + wn = (y + 1) * wn := by ring
  have hc : (y + 1) * wn ≤ hn * wn := Nat.mul_le_mul_right wn hy
  have hd : ch * (y * wn + x) + ch = ch * (y * wn + x + 1) := by ring
  have he : ch * (y * wn + x + 1) ≤ ch * (hn * wn) := Nat.mul_le_mul_left ch (by omega)
  have hf : ch * (hn * wn) = wn * hn * ch := by ring
  omega

/-- C10: for in-bounds coordinates, `getPixel` right after
`setPixel (x, y, c)` returns exactly `c`'s red, green and blue channels;
on a 4-channel image it also returns `c`'s alpha, while on a 3-channel
image the returned alpha is the constructor default 255, whatever alpha
was passed in. -/
theorem getPixel_setPixel (s : BMP) (x y : Nat) (c : Color)
    (hch : s.channels = 3 ∨ s.channels = 4)
    (hx : x < s.bmp_info_header.width.toNat)
    (hy : y < s.bmp_info_header.height.toNat)
    (hlen : s.data.length =
      s.bmp_info_header.width.toNat * s.bmp_info_header.height.toNat * s.channels)
    (hsz : s.bmp_info_header.width.toNat * s.bmp_info_header.height.toNat * s.channels
      < 2 ^ 32) :
    (s.setPixel x y c).getPixel x y =
      { r := c.r, g := c.g, b := c.b, alpha := if s.channels = 4 then c.alpha else 255 } := by
  have hpos := pixpos_bound s.channels s.bmp_info_header.width.toNat
    s.bmp_info_header.height.toNat x y hx hy
  rcases hch with h3 | h4
  · rw [h3] at hpos hlen hsz
    simp only [BMP.setPixel, BMP.getPixel, h3,
      Nat.mod_eq_of_lt (show 3 * (y * s.bmp_info_header.width.toNat + x) < 2 ^ 32 by omega)]
    norm_num
    refine ⟨?_, ?_, ?_⟩
    · rw [byteAt_set_eq]
      simp only [List.length_set]
      omega
    · rw [byteAt_set_ne _ _ _ _ (by omega), byteAt_set_eq]
      simp only [List.length_set]
      omega
    · rw [byteAt_set_ne _ _ _ _ (by omega), byteAt_set_ne _ _ _ _ (by omega),
        byteAt_set_eq _ _ _ (by omega)]
  · rw [h4] at hpos hlen hsz
    simp only [BMP.setPixel, BMP.getPixel, h4,
      Nat.mod_eq_of_lt (show 4 * (y * s.bmp_info_header.width.toNat + x) < 2 ^ 32 by omega)]
    norm_num
    refine ⟨?_, ?_, ?_, ?_⟩
    · rw [byteAt_set_ne _ _ _ _ (by omega), byteAt_set_eq]
      simp only [List.length_set]
      omega
    · rw [byteAt_set_ne _ _ _ _ (by omega), byteAt_set_ne _ _ _ _ (by omega), byteAt_set_eq]
      simp only [List.length_set]
      omega
    · rw [byteAt_set_ne _ _ _ _ (by omega), byteAt_set_ne _ _ _ _ (by omega),
        byteAt_set_ne _ _ _ _ (by omega), byteAt_set_eq _ _ _ (by omega)]
    · rw [byteAt_set_eq]
      simp only [List.length_set]
      omega

/-- C10 witness: the set/get round trip evaluated on a concrete
3×2 32-bit image. -/
theorem getPixel_setPixel_witness :
    (((mkBMP 3 2 true).2).setPixel 1 0 ⟨1, 2, 3, 9⟩).getPixel 1 0 =
      { r := 1, g := 2, b := 3,
        alpha := if (mkBMP 3 2 true).2.channels = 4 then 9 else 255 } :=
  getPixel_setPixel (mkBMP 3 2 true).2 1 0 ⟨1, 2, 3, 9⟩ (by decide) (by decide) (by decide)
    (by decide) (by decide)

/-- C7 amended: for positive dimensions small enough that the `uint32_t`
size computations do not wrap (`w * h * 4 < 2 ^ 32`), the constructor
allocates an all-zero pixel buffer of exactly `w * h * 4` bytes with alpha
and `w * h * 3` bytes without (and in that range emits no diagnostic);
`mkBMP_width_overflow` shows the unrestricted claim fails at
`w = 2 ^ 30`. -/
theorem mkBMP_zero_buffer (w h : Int) (hw : 0 < w) (hh : 0 < h)
    (hb : w * h * 4 < 2 ^ 32) :
    (mkBMP w h true).1 = [] ∧
      (mkBMP w h true).2.data = List.replicate (w.toNat * h.toNat * 4) 0 ∧
      (mkBMP w h false).1 = [] ∧
      (mkBMP w h false).2.data = List.replicate (w.toNat * h.toNat * 3) 0 := by
  obtain ⟨wn, rfl⟩ : ∃ n : Nat, w = (n : Int) := ⟨w.toNat, (Int.toNat_of_nonneg (by omega)).symm⟩
  obtain ⟨hn, rfl⟩ : ∃ n : Nat, h = (n : Int) := ⟨h.toNat, (Int.toNat_of_nonneg (by omega)).symm⟩
  have hwn : 0 < wn := by exact_mod_cast hw
  have hhn : 0 < hn := by exact_mod_cast hh
  have hbn : wn * hn * 4 < 2 ^ 32 := by exact_mod_cast hb
  have h4 : wn * 4 ≤ wn * hn * 4 := by nlinarith
  have h3 : wn * 3 ≤ wn * 4 := by nlinarith
  have hhb : hn ≤ wn * hn * 4 := by nlinarith
  have e1 : ((wn : Int) * 4) % (2 ^ 32) = ((wn * 4 : Nat) : Int) := by
    push_cast
    omega
  have e3 : ((wn : Int) * 3) % (2 ^ 32) = ((wn * 3 : Nat) : Int) := by
    push_cast
    omega
  have eh : ((hn : Int)) % (2 ^ 32) = ((hn : Nat) : Int) := by
    omega
  have hwarn : ¬ ((wn : Int) ≤ 0 ∨ (hn : Int) ≤ 0) := by omega
  refine ⟨?_, ?_, ?_, ?_⟩ <;>
    simp only [mkBMP, hwarn, if_false, if_true, e1, e3, eh, Int.toNat_natCast, if_neg hwarn,
      Bool.false_eq_true, ite_true, ite_false] <;>
    first
      | rfl
      | (rw [Nat.mod_eq_of_lt (by nlinarith)]
         congr 1
         ring)

/-- C7 witness: the allocation result evaluated at `w = 2`, `h = 1`. -/
theorem mkBMP_zero_buffer_witness :
    (mkBMP 2 1 true).1 = [] ∧
      (mkBMP 2 1 true).2.data = List.replicate ((2 : Int).toNat * (1 : Int).toNat * 4) 0 ∧
      (mkBMP 2 1 false).1 = [] ∧
      (mkBMP 2 1 false).2.data = List.replicate ((2 : Int).toNat * (1 : Int).toNat * 3) 0 :=
  mkBMP_zero_buffer 2 1 (by decide) (by decide) (by decide)

/-- The horizontal branch of `drawLine`: after the `x1 > x2` swap it plots
`(x1 + i, y1)` for `0 ≤ i < x2 - x1`. -/
theorem drawLineTrace_hor (x1 y1 x2 : Int) (hne : x1 ≠ x2) :
    drawLineTrace x1 y1 x2 y1 =
      (List.range ((if x2 < x1 then x1 else x2) - (if x2 < x1 then x2 else x1)).toNat).map
        (fun i : Nat => ((if x2 < x1 then x2 else x1) + (i : Int), y1)) := by
  unfold drawLineTrace
  rw [if_neg (show ¬(x1 = x2 ∧ y1 = y1) from by tauto), if_pos rfl]

/-- The vertical branch of `drawLine`. -/
theorem drawLineTrace_ver (x1 y1 y2 : Int) (hne : y1 ≠ y2) :
    drawLineTrace x1 y1 x1 y2 =
      (List.range ((if y2 < y1 then y1 else y2) - (if y2 < y1 then y2 else y1)).toNat).map
        (fun i : Nat => (x1, (if y2 < y1 then y2 else y1) + (i : Int))) := by
  unfold drawLineTrace
  rw [if_neg (show ¬(x1 = x1 ∧ y1 = y2) from by tauto), if_neg hne, if_pos rfl]

/-- Membership in a horizontal run of pixels. -/
theorem mem_range_map_fst (a y : Int) (n : Nat) (p : Int × Int) :
    p ∈ (List.range n).map (fun i : Nat => (a + (i : Int), y)) ↔
      p.2 = y ∧ a ≤ p.1 ∧ p.1 < a + n := by
  cases p with
  | mk px py =>
    simp only [List.mem_map, List.mem_range, Prod.mk.injEq]
    constructor
    · rintro ⟨i, hi, rfl, rfl⟩
      refine ⟨rfl, by omega, by omega⟩
    · rintro ⟨rfl, h1, h2⟩
      exact ⟨(px - a).toNat, by omega, by omega, rfl⟩

/-- Membership in a vertical run of pixels. -/
theorem mem_range_map_snd (a x : Int) (n : Nat) (p : Int × Int) :
    p ∈ (List.range n).map (fun i : Nat => (x, a + (i : Int))) ↔
      p.1 = x ∧ a ≤ p.2 ∧ p.2 < a + n := by
  cases p with
  | mk px py =>
    simp only [List.mem_map, List.mem_range, Prod.mk.injEq]
    constructor
    · rintro ⟨i, hi, rfl, rfl⟩
      refine ⟨rfl, by omega, by omega⟩
    · rintro ⟨rfl, h1, h2⟩
      exact ⟨(py - a).toNat, by omega, by omega, by omega⟩

/-- C5: a pure horizontal line (`y1 = y2`, `x1 ≠ x2`) sets exactly the
pixels with `x` in the half-open interval `[min x1 x2, max x1 x2)` at row
`y1`, the analogous half-open set holds for pure vertical lines, and in
particular `drawLine(0, 0, 5, 0)` plots exactly `(0,0) … (4,0)`. -/
theorem drawLine_axis_halfOpen (x1 y1 x2 y2 : Int) :
    (y1 = y2 → x1 ≠ x2 → ∀ p : Int × Int,
      p ∈ drawLineTrace x1 y1 x2 y2 ↔ p.2 = y1 ∧ min x1 x2 ≤ p.1 ∧ p.1 < max x1 x2) ∧
    (x1 = x2 → y1 ≠ y2 → ∀ p : Int × Int,
      p ∈ drawLineTrace x1 y1 x2 y2 ↔ p.1 = x1 ∧ min y1 y2 ≤ p.2 ∧ p.2 < max y1 y2) ∧
    drawLineTrace 0 0 5 0 = [(0, 0), (1, 0), (2, 0), (3, 0), (4, 0)] := by
  refine ⟨?_, ?_, by decide⟩
  · rintro rfl hne p
    rw [drawLineTrace_hor x1 y1 x2 hne, mem_range_map_fst]
    rcases lt_or_gt_of_ne hne with h | h
    · rw [if_neg (by omega), if_neg (by omega), min_eq_left (by omega),
        max_eq_right (by omega)]
      constructor <;> rintro ⟨h1, h2, h3⟩ <;> exact ⟨h1, by omega, by omega⟩
    · rw [if_pos (by omega), if_pos (by omega), min_eq_right (by omega),
        max_eq_left (by omega)]
      constructor <;> rintro ⟨h1, h2, h3⟩ <;> exact ⟨h1, by omega, by omega⟩
  · rintro rfl hne p
    rw [drawLineTrace_ver x1 y1 y2 hne, mem_range_map_snd]
    rcases lt_or_gt_of_ne hne with h | h
    · rw [if_neg (by omega), if_neg (by omega), min_eq_left (by omega),
        max_eq_right (by omega)]
      constructor <;> rintro ⟨h1, h2, h3⟩ <;> exact ⟨h1, by omega, by omega⟩
    · rw [if_pos (by omega), if_pos (by omega), min_eq_right (by omega),
        max_eq_left (by omega)]
      constructor <;> rintro ⟨h1, h2, h3⟩ <;> exact ⟨h1, by omega, by omega⟩

/-- C5 witness: the half-open characterization instantiated on the
concrete horizontal line from `(0, 0)` to `(5, 0)` at pixel `(2, 0)`. -/
theorem drawLine_axis_halfOpen_witness :
    (2, 0) ∈ drawLineTrace 0 0 5 0 ↔
      ((2, 0) : Int × Int).2 = 0 ∧ min 0 5 ≤ ((2, 0) : Int × Int).1 ∧
        ((2, 0) : Int × Int).1 < max 0 5 :=
  (drawLine_axis_halfOpen 0 0 5 0).1 rfl (by decide) (2, 0)

/-- The general (DDA) branch of `drawLine`: octant normalization (axis
swap when `|y2-y1| > |x2-x1|`), the integer loop along the dominant axis,
then a final plot of `(x2, y2)`. -/
theorem drawLineTrace_gen (x1 y1 x2 y2 : Int) (hx : x1 ≠ x2) (hy : y1 ≠ y2) :
    drawLineTrace x1 y1 x2 y2 =
      (if |x2 - x1| < |y2 - y1| then
        ddaLoop true (if 0 < y2 - y1 then 1 else -1) (if 0 < x2 - x1 then 1 else -1)
          |y2 - y1| |x2 - x1| |y2 - y1|.toNat y1 x1 (2 * |x2 - x1| - |y2 - y1|)
      else
        ddaLoop false (if 0 < x2 - x1 then 1 else -1) (if 0 < y2 - y1 then 1 else -1)
          |x2 - x1| |y2 - y1| |x2 - x1|.toNat x1 y1 (2 * |y2 - y1| - |x2 - x1|)) ++
        [(x2, y2)] := by
  unfold drawLineTrace
  rw [if_neg (show ¬(x1 = x2 ∧ y1 = y2) from by tauto), if_neg hy, if_neg hx]

/-- Every plot of the DDA loop has dominant coordinate `x + i * sx` for
some step index `i < n`: the loop advances strictly monotonically along
the dominant axis. -/
theorem ddaLoop_dom (steep : Bool) (sx sy dx dy : Int) :
    ∀ (n : Nat) (x y e : Int) (q : Int × Int), q ∈ ddaLoop steep sx sy dx dy n x y e →
      ∃ i : Nat, i < n ∧ (if steep then q.2 else q.1) = x + i * sx := by
  intro n
  induction n with
  | zero =>
    intro x y e q hq
    simp [ddaLoop] at hq
  | succ m ih =>
    intro x y e q hq
    rw [ddaLoop] at hq
    rcases List.mem_cons.mp hq with h | h
    · refine ⟨0, by omega, ?_⟩
      subst h
      cases steep <;> simp
    · obtain ⟨i, hi, hdom⟩ := ih (x + sx) _ _ q h
      refine ⟨i + 1, by omega, ?_⟩
      rw [hdom]
      push_cast
      ring

/-- A point whose dominant coordinate is hit by no step of the DDA loop is
never plotted by it. -/
theorem ddaLoop_count_zero (steep : Bool) (sx sy dx dy : Int) (n : Nat) (x y e : Int)
    (q : Int × Int) (hq : ∀ i : Nat, i < n → (if steep then q.2 else q.1) ≠ x + i * sx) :
    (ddaLoop steep sx sy dx dy n x y e).count q = 0 := by
  rw [List.count_eq_zero]
  intro hmem
  obtain ⟨i, hi, hdom⟩ := ddaLoop_dom steep sx sy dx dy n x y e q hmem
  exact hq i hi hdom

/-- In `ddaLoop n ++ [p2]` the starting pixel is plotted exactly once (at
step 0) and the endpoint `p2` (dominant coordinate `x + n * sx`, beyond the
loop's last step) exactly once (by the final plot). -/
theorem dda_branch_counts (steep : Bool) (sx sy dx dy : Int) (x y e : Int) (n : Nat)
    (hn : 0 < n) (hsx : sx = 1 ∨ sx = -1) (p2 : Int × Int)
    (hdomq : (if steep then p2.2 else p2.1) = x + n * sx)
    (hpne : (if steep then ((y, x) : Int × Int) else (x, y)) ≠ p2) :
    (ddaLoop steep sx sy dx dy n x y e ++ [p2]).count
        (if steep then ((y, x) : Int × Int) else (x, y)) = 1 ∧
      (ddaLoop steep sx sy dx dy n x y e ++ [p2]).count p2 = 1 := by
  have hsx0 : sx ≠ 0 := by rcases hsx with h | h <;> simp [h]
  have hdomp : (if steep then (if steep then ((y, x) : Int × Int) else (x, y)).2
      else (if steep then ((y, x) : Int × Int) else (x, y)).1) = x := by
    cases steep <;> simp
  constructor
  · rw [List.count_append]
    have hone : (ddaLoop steep sx sy dx dy n x y e).count
        (if steep then ((y, x) : Int × Int) else (x, y)) = 1 := by
      obtain ⟨m, rfl⟩ : ∃ m, n = m + 1 := ⟨n - 1, by omega⟩
      rw [ddaLoop]
      simp only [List.count_cons, if_pos rfl]
      have hzero := ddaLoop_count_zero steep sx sy dx dy m (x + sx)
        (ddaInner dx sy y e).1 ((ddaInner dx sy y e).2 + 2 * dy)
        (if steep then ((y, x) : Int × Int) else (x, y)) ?_
      · rw [hzero]
        simp
      · intro i hi
        rw [hdomp]
        have hr : x + sx + (i : Int) * sx = x + ((i : Int) + 1) * sx := by ring
        rw [hr]
        intro heq
        have h2 : ((i : Int) + 1) * sx ≠ 0 := mul_ne_zero (by omega) hsx0
        omega
    rw [hone]
    have : ([p2].count (if steep then ((y, x) : Int × Int) else (x, y))) = 0 := by
      rw [List.count_eq_zero]
      intro hmem
      rcases List.mem_singleton.mp hmem with rfl
      exact hpne rfl
    omega
  · rw [List.count_append]
    have h0 : (ddaLoop steep sx sy dx dy n x y e).count p2 = 0 := by
      apply ddaLoop_count_zero
      intro i hi
      rw [hdomq]
      intro heq
      have h3 : (n : Int) * sx = (i : Int) * sx := by omega
      have h4 : (n : Int) = (i : Int) := mul_right_cancel₀ hsx0 h3
      omega
    rw [h0]
    simp

/-- The endpoint lies `|b - a|` signed unit steps from the start. -/
theorem endpoint_shift (a b : Int) (h : a ≠ b) :
    b = a + ((|b - a|).toNat : Int) * (if 0 < b - a then 1 else -1) := by
  have habs : (((|b - a|).toNat : Int)) = |b - a| := Int.toNat_of_nonneg (abs_nonneg _)
  rw [habs]
  rcases lt_or_gt_of_ne h with hlt | hgt
  · rw [abs_of_pos (by omega), if_pos (by omega)]
    ring
  · rw [abs_of_neg (by omega), if_neg (by omega)]
    ring

/-- A nondegenerate axis delta gives a positive loop count. -/
theorem abs_toNat_pos (a b : Int) (h : a ≠ b) : 0 < (|b - a|).toNat := by
  have habs : (((|b - a|).toNat : Int)) = |b - a| := Int.toNat_of_nonneg (abs_nonneg _)
  have h2 : 0 < |b - a| := abs_pos.mpr (by omega)
  omega

/-- C6: in the general case (`x1 ≠ x2` and `y1 ≠ y2`), the integer DDA
loop — iterating along the dominant axis after octant normalization —
plots each of the endpoint pixels `(x1, y1)` and `(x2, y2)` exactly
once. -/
theorem drawLine_general_endpoints (x1 y1 x2 y2 : Int) (hx : x1 ≠ x2) (hy : y1 ≠ y2) :
    (drawLineTrace x1 y1 x2 y2).count (x1, y1) = 1 ∧
      (drawLineTrace x1 y1 x2 y2).count (x2, y2) = 1 := by
  rw [drawLineTrace_gen x1 y1 x2 y2 hx hy]
  have hne : ((x1, y1) : Int × Int) ≠ (x2, y2) := by
    intro h
    exact hx (congrArg Prod.fst h)
  split
  · have h := dda_branch_counts true (if 0 < y2 - y1 then 1 else -1)
      (if 0 < x2 - x1 then 1 else -1) |y2 - y1| |x2 - x1| y1 x1
      (2 * |x2 - x1| - |y2 - y1|) (|y2 - y1|).toNat (abs_toNat_pos y1 y2 hy)
      (by split <;> simp) (x2, y2) (by simpa using endpoint_shift y1 y2 hy) (by simpa using hne)
    simpa using h
  · have h := dda_branch_counts false (if 0 < x2 - x1 then 1 else -1)
      (if 0 < y2 - y1 then 1 else -1) |x2 - x1| |y2 - y1| x1 y1
      (2 * |y2 - y1| - |x2 - x1|) (|x2 - x1|).toNat (abs_toNat_pos x1 x2 hx)
      (by split <;> simp) (x2, y2) (by simpa using endpoint_shift x1 x2 hx) (by simpa using hne)
    exact h

/-- C6 witness: endpoint multiplicities on the concrete line from
`(0, 0)` to `(3, 2)`. -/
theorem drawLine_general_endpoints_witness :
    (drawLineTrace 0 0 3 2).count (0, 0) = 1 ∧ (drawLineTrace 0 0 3 2).count (3, 2) = 1 :=
  drawLine_general_endpoints 0 0 3 2 (by decide) (by decide)

/-- After `swapPixel`, the bytes at `p1` hold the former bytes at `p2`. -/
theorem swapPixel_byteAt_left (ch : Nat) (hch : ch = 3 ∨ ch = 4) (d : List Nat) (p1 p2 : Nat)
    (hsep : p1 + ch ≤ p2) (hlen : p2 + ch ≤ d.length) (k : Nat) (hk : k < ch) :
    byteAt (swapPixel ch d p1 p2) (p1 + k) = byteAt d (p2 + k) := by
  rcases hch with h | h <;> subst h
  · rw [swapPixel, if_neg (by omega)]
    have hk3 : k = 0 ∨ k = 1 ∨ k = 2 := by omega
    rcases hk3 with rfl | rfl | rfl <;> (try simp only [Nat.add_zero]) <;>
      repeat first
        | rfl
        | rw [byteAt_set_ne _ _ _ _ (by omega)]
        | rw [byteAt_set_eq _ _ _ (by (try simp only [List.length_set]); omega)]
  · rw [swapPixel, if_pos rfl]
    have hk4 : k = 0 ∨ k = 1 ∨ k = 2 ∨ k = 3 := by omega
    rcases hk4 with rfl | rfl | rfl | rfl <;> (try simp only [Nat.add_zero]) <;>
      repeat first
        | rfl
        | rw [byteAt_set_ne _ _ _ _ (by omega)]
        | rw [byteAt_set_eq _ _ _ (by (try simp only [List.length_set]); omega)]
/-- After `swapPixel`, the bytes at `p2` hold the former bytes at `p1`. -/
theorem swapPixel_byteAt_right (ch : Nat) (hch : ch = 3 ∨ ch = 4) (d : List Nat) (p1 p2 : Nat)
    (hsep : p1 + ch ≤ p2) (hlen : p2 + ch ≤ d.length) (k : Nat) (hk : k < ch) :
    byteAt (swapPixel ch d p1 p2) (p2 + k) = byteAt d (p1 + k) := by
  rcases hch with h | h <;> subst h
  · rw [swapPixel, if_neg (by omega)]
    have hk3 : k = 0 ∨ k = 1 ∨ k = 2 := by omega
    rcases hk3 with rfl | rfl | rfl <;> (try simp only [Nat.add_zero]) <;>
      repeat first
        | rfl
        | rw [byteAt_set_ne _ _ _ _ (by omega)]
        | rw [byteAt_set_eq _ _ _ (by (try simp only [List.length_set]); omega)]
  · rw [swapPixel, if_pos rfl]
    have hk4 : k = 0 ∨ k = 1 ∨ k = 2 ∨ k = 3 := by omega
    rcases hk4 with rfl | rfl | rfl | rfl <;> (try simp only [Nat.add_zero]) <;>
      repeat first
        | rfl
        | rw [byteAt_set_ne _ _ _ _ (by omega)]
        | rw [byteAt_set_eq _ _ _ (by (try simp only [List.length_set]); omega)]

/-- `swapPixel` touches no byte outside the two pixel ranges. -/
theorem swapPixel_byteAt_outside (ch : Nat) (hch : ch = 3 ∨ ch = 4) (d : List Nat)
    (p1 p2 : Nat) (hsep : p1 + ch ≤ p2) (hlen : p2 + ch ≤ d.length) (q : Nat)
    (hq : q < p1 ∨ (p1 + ch ≤ q ∧ q < p2) ∨ p2 + ch ≤ q) :
    byteAt (swapPixel ch d p1 p2) q = byteAt d q := by
  rcases hch with h | h <;> subst h
  · rw [swapPixel, if_neg (by omega)]
    repeat first
      | rfl
      | rw [byteAt_set_ne _ _ _ _ (by omega)]
  · rw [swapPixel, if_pos rfl]
    repeat first
      | rfl
      | rw [byteAt_set_ne _ _ _ _ (by omega)]
/-- Every buffer offset decomposes uniquely as pixel coordinates plus a
channel index. -/
theorem pix_decompose (ch w h q : Nat) (hq : q < w * h * ch) :
    ∃ y x k, y < h ∧ x < w ∧ k < ch ∧ q = ch * (y * w + x) + k := by
  have hch : 0 < ch := by by_contra hc; simp [Nat.le_zero.mp (Nat.not_lt.mp hc)] at hq
  have hw : 0 < w := by by_contra hc; rw [Nat.le_zero.mp (Nat.not_lt.mp hc)] at hq; simp at hq
  refine ⟨q / ch / w, q / ch % w, q % ch, ?_, Nat.mod_lt _ hw, Nat.mod_lt _ hch, ?_⟩
  · have h1 : ch * (q / ch) ≤ q := Nat.mul_div_le q ch
    have h2 : q / ch < w * h := by
      by_contra hc
      have h3 : w * h ≤ q / ch := Nat.not_lt.mp hc
      have h4 : ch * (w * h) ≤ ch * (q / ch) := Nat.mul_le_mul_left ch h3
      have h5 : ch * (w * h) = w * h * ch := by ring
      omega
    have h6 : q / ch / w < h := Nat.div_lt_iff_lt_mul hw |>.mpr (by
      have : w * h = h * w := by ring
      omega)
    exact h6
  · have e1 : ch * (q / ch) + q % ch = q := by
      have := Nat.div_add_mod q ch
      omega
    have e2 : w * (q / ch / w) + q / ch % w = q / ch := by
      have := Nat.div_add_mod (q / ch) w
      omega
    have e3 : ch * (q / ch / w * w + q / ch % w) + q % ch = q := by
      calc ch * (q / ch / w * w + q / ch % w) + q % ch
          = ch * (w * (q / ch / w) + q / ch % w) + q % ch := by ring_nf
        _ = ch * (q / ch) + q % ch := by rw [e2]
        _ = q := e1
    exact e3.symm

/-- Distinct in-range pixel coordinates give distinct pixel indices. -/
theorem pixIndex_ne (w y1 x1 y2 x2 : Nat) (hx1 : x1 < w) (hx2 : x2 < w)
    (hne : y1 ≠ y2 ∨ x1 ≠ x2) : y1 * w + x1 ≠ y2 * w + x2 := by
  intro h
  have hm1 : (y1 * w + x1) % w = x1 := by
    rw [Nat.mul_comm y1 w, Nat.mul_add_mod]
    exact Nat.mod_eq_of_lt hx1
  have hm2 : (y2 * w + x2) % w = x2 := by
    rw [Nat.mul_comm y2 w, Nat.mul_add_mod]
    exact Nat.mod_eq_of_lt hx2
  have hx : x1 = x2 := by rw [← hm1, ← hm2, h]
  subst hx
  have hw : 0 < w := by omega
  have hy : y1 = y2 := by
    have := Nat.eq_of_mul_eq_mul_right hw (show y1 * w = y2 * w by omega)
    exact this
  tauto

/-- The byte range of one pixel lies entirely on one side of another
pixel's byte range. -/
theorem pix_range_side (ch A B kq : Nat) (hA : A ≠ B) (hk : kq < ch) :
    ch * A + kq < ch * B ∨ ch * B + ch ≤ ch * A + kq := by
  rcases Nat.lt_or_ge A B with h | h
  · left
    have h1 : ch * A + ch = ch * (A + 1) := by ring
    have h2 : ch * (A + 1) ≤ ch * B := Nat.mul_le_mul_left ch (by omega)
    omega
  · right
    have h1 : ch * B + ch = ch * (B + 1) := by ring
    have h2 : ch * (B + 1) ≤ ch * A := Nat.mul_le_mul_left ch (by omega)
    omega

/-- In range, `byteAt` is plain list indexing. -/
theorem byteAt_eq_getElem (l : List Nat) (i : Nat) (h : i < l.length) :
    byteAt l i = l[i] := List.getD_eq_getElem l 0 h
/-- `swapPixel` preserves the buffer length. -/
theorem swapPixel_length (ch : Nat) (d : List Nat) (p1 p2 : Nat) :
    (swapPixel ch d p1 p2).length = d.length := by
  unfold swapPixel
  split <;> simp

/-- The `FlipX` inner loop preserves the buffer length. -/
theorem flipXInner_length (ch w y : Nat) (d : List Nat) :
    ∀ n, (flipXInner ch w y d n).length = d.length := by
  intro n
  induction n with
  | zero => rfl
  | succ m ih => rw [flipXInner, swapPixel_length, ih]

/-- Invariant of the `FlipX` inner loop after `n ≤ width / 2` steps on
row `y`: the first `n` pixels and their mirrors are exchanged, and every
pixel of another row, or of this row with column in `[n, w - n)`, is
untouched. -/
theorem flipXInner_spec (ch w h y : Nat) (hch : ch = 3 ∨ ch = 4) (d : List Nat)
    (hlen : d.length = w * h * ch) (hsz : w * h * ch < 2 ^ 32) (hy : y < h) :
    ∀ n, n ≤ w / 2 →
      (∀ x, x < n → ∀ k, k < ch →
        byteAt (flipXInner ch w y d n) (ch * (y * w + x) + k) =
          byteAt d (ch * (y * w + (w - 1 - x)) + k) ∧
        byteAt (flipXInner ch w y d n) (ch * (y * w + (w - 1 - x)) + k) =
          byteAt d (ch * (y * w + x) + k)) ∧
      (∀ yq xq kq, yq < h → xq < w → kq < ch → (yq ≠ y ∨ (n ≤ xq ∧ xq < w - n)) →
        byteAt (flipXInner ch w y d n) (ch * (yq * w + xq) + kq) =
          byteAt d (ch * (yq * w + xq) + kq)) := by
  intro n
  induction n with
  | zero =>
    intro _
    exact ⟨fun x hx => absurd hx (Nat.not_lt_zero x), fun yq xq kq _ _ _ _ => rfl⟩
  | succ n ih =>
    intro hn1
    have hn : n ≤ w / 2 := by omega
    have IH := ih hn
    have hww : 2 * n + 2 ≤ w := by omega
    have hsub : y * w + w - 1 - n = y * w + (w - 1 - n) := by omega
    have hb1 : ch * (y * w + n) + ch ≤ w * h * ch := pixpos_bound ch w h n y (by omega) hy
    have hb2 : ch * (y * w + (w - 1 - n)) + ch ≤ w * h * ch :=
      pixpos_bound ch w h (w - 1 - n) y (by omega) hy
    have hm1 : ch * (y * w + n) % 2 ^ 32 = ch * (y * w + n) := Nat.mod_eq_of_lt (by omega)
    have hm2 : ch * (y * w + w - 1 - n) % 2 ^ 32 = ch * (y * w + (w - 1 - n)) := by
      rw [hsub]
      exact Nat.mod_eq_of_lt (by omega)
    have hsep : ch * (y * w + n) + ch ≤ ch * (y * w + (w - 1 - n)) := by
      have h1 : ch * (y * w + n) + ch = ch * (y * w + n + 1) := by ring
      have h2 : ch * (y * w + n + 1) ≤ ch * (y * w + (w - 1 - n)) :=
        Nat.mul_le_mul_left ch (by omega)
      omega
    have hlen' : (flipXInner ch w y d n).length = d.length := flipXInner_length ch w y d n
    have hstep : flipXInner ch w y d (n + 1) =
        swapPixel ch (flipXInner ch w y d n) (ch * (y * w + n)) (ch * (y * w + (w - 1 - n))) := by
      rw [flipXInner, hm1, hm2]
    constructor
    · intro x hx k hk
      rcases Nat.lt_or_ge x n with hxn | hxn
      · have hs1 := pix_range_side ch (y * w + x) (y * w + n) k (by omega) hk
        have hs2 := pix_range_side ch (y * w + x) (y * w + (w - 1 - n)) k (by omega) hk
        have ht1 := pix_range_side ch (y * w + (w - 1 - x)) (y * w + n) k (by omega) hk
        have ht2 := pix_range_side ch (y * w + (w - 1 - x)) (y * w + (w - 1 - n)) k (by omega) hk
        refine ⟨?_, ?_⟩
        · rw [hstep, swapPixel_byteAt_outside ch hch _ _ _ hsep (by omega) _ (by omega)]
          exact (IH.1 x hxn k hk).1
        · rw [hstep, swapPixel_byteAt_outside ch hch _ _ _ hsep (by omega) _ (by omega)]
          exact (IH.1 x hxn k hk).2
      · have hxe : x = n := by omega
        subst hxe
        refine ⟨?_, ?_⟩
        · rw [hstep, swapPixel_byteAt_left ch hch _ _ _ hsep (by omega) k hk]
          exact IH.2 y (w - 1 - x) k hy (by omega) hk (Or.inr ⟨by omega, by omega⟩)
        · rw [hstep, swapPixel_byteAt_right ch hch _ _ _ hsep (by omega) k hk]
          exact IH.2 y x k hy (by omega) hk (Or.inr ⟨by omega, by omega⟩)
    · intro yq xq kq hyq hxq hkq hcond
      have hA1 : yq * w + xq ≠ y * w + n := by
        rcases hcond with h | h
        · exact pixIndex_ne w yq xq y n hxq (by omega) (Or.inl h)
        · exact pixIndex_ne w yq xq y n hxq (by omega) (Or.inr (by omega))
      have hA2 : yq * w + xq ≠ y * w + (w - 1 - n) := by
        rcases hcond with h | h
        · exact pixIndex_ne w yq xq y (w - 1 - n) hxq (by omega) (Or.inl h)
        · exact pixIndex_ne w yq xq y (w - 1 - n) hxq (by omega) (Or.inr (by omega))
      have hs1 := pix_range_side ch (yq * w + xq) (y * w + n) kq hA1 hkq
      have hs2 := pix_range_side ch (yq * w + xq) (y * w + (w - 1 - n)) kq hA2 hkq
      rw [hstep, swapPixel_byteAt_outside ch hch _ _ _ hsep (by omega) _ (by omega)]
      exact IH.2 yq xq kq hyq hxq hkq (by
        rcases hcond with h | h
        · exact Or.inl h
        · exact Or.inr ⟨by omega, by omega⟩)
/-- The complete `FlipX` row pass mirrors every pixel of row `y` (the
middle pixel of an odd width maps to itself) and leaves other rows
untouched. -/
theorem flipXInner_full (ch w h y : Nat) (hch : ch = 3 ∨ ch = 4) (d : List Nat)
    (hlen : d.length = w * h * ch) (hsz : w * h * ch < 2 ^ 32) (hy : y < h) :
    (∀ x, x < w → ∀ k, k < ch →
      byteAt (flipXInner ch w y d (w / 2)) (ch * (y * w + x) + k) =
        byteAt d (ch * (y * w + (w - 1 - x)) + k)) ∧
    (∀ yq xq kq, yq < h → xq < w → kq < ch → yq ≠ y →
      byteAt (flipXInner ch w y d (w / 2)) (ch * (yq * w + xq) + kq) =
        byteAt d (ch * (yq * w + xq) + kq)) := by
  have S := flipXInner_spec ch w h y hch d hlen hsz hy (w / 2) le_rfl
  constructor
  · intro x hx k hk
    rcases Nat.lt_or_ge x (w / 2) with h1 | h1
    · exact (S.1 x h1 k hk).1
    · rcases Nat.lt_or_ge (w - 1 - x) (w / 2) with h2 | h2
      · have hmx : w - 1 - (w - 1 - x) = x := by omega
        have hmm := (S.1 (w - 1 - x) h2 k hk).2
        rw [hmx] at hmm
        exact hmm
      · have hmid : w - 1 - x = x := by omega
        rw [hmid]
        exact S.2 y x k hy hx hk (Or.inr ⟨h1, by omega⟩)
  · intro yq xq kq hyq hxq hkq hne
    exact S.2 yq xq kq hyq hxq hkq (Or.inl hne)

/-- The `FlipX` outer loop preserves the buffer length. -/
theorem flipXOuter_length (ch w : Nat) (d : List Nat) :
    ∀ m, (flipXOuter ch w d m).length = d.length := by
  intro m
  induction m with
  | zero => rfl
  | succ n ih => rw [flipXOuter, flipXInner_length, ih]

/-- Invariant of the `FlipX` outer loop: rows below `m` are mirrored,
rows at or above `m` untouched. -/
theorem flipXOuter_spec (ch w h : Nat) (hch : ch = 3 ∨ ch = 4) (d : List Nat)
    (hlen : d.length = w * h * ch) (hsz : w * h * ch < 2 ^ 32) :
    ∀ m, m ≤ h →
      (∀ y, y < m → ∀ x, x < w → ∀ k, k < ch →
        byteAt (flipXOuter ch w d m) (ch * (y * w + x) + k) =
          byteAt d (ch * (y * w + (w - 1 - x)) + k)) ∧
      (∀ yq xq kq, yq < h → xq < w → kq < ch → m ≤ yq →
        byteAt (flipXOuter ch w d m) (ch * (yq * w + xq) + kq) =
          byteAt d (ch * (yq * w + xq) + kq)) := by
  intro m
  induction m with
  | zero =>
    intro _
    exact ⟨fun y hy => absurd hy (Nat.not_lt_zero y), fun yq xq kq _ _ _ _ => rfl⟩
  | succ m ih =>
    intro hm1
    have IH := ih (by omega)
    have hlenO : (flipXOuter ch w d m).length = w * h * ch := by
      rw [flipXOuter_length]
      exact hlen
    have F := flipXInner_full ch w h m hch (flipXOuter ch w d m) hlenO hsz (by omega)
    constructor
    · intro y hy x hx k hk
      rcases Nat.lt_or_ge y m with hym | hym
      · rw [flipXOuter, F.2 y x k (by omega) hx hk (by omega)]
        exact IH.1 y hym x hx k hk
      · have hye : y = m := by omega
        subst hye
        rw [flipXOuter, F.1 x hx k hk]
        exact IH.2 y (w - 1 - x) k (by omega) (by omega) hk (by omega)
    · intro yq xq kq hyq hxq hkq hge
      rw [flipXOuter, F.2 yq xq kq hyq hxq hkq (by omega)]
      exact IH.2 yq xq kq hyq hxq hkq (by omega)

/-- Running the full `FlipX` loops twice restores the buffer exactly. -/
theorem flipXOuter_involution (ch w h : Nat) (hch : ch = 3 ∨ ch = 4) (d : List Nat)
    (hlen : d.length = w * h * ch) (hsz : w * h * ch < 2 ^ 32) :
    flipXOuter ch w (flipXOuter ch w d h) h = d := by
  have hlen1 : (flipXOuter ch w d h).length = w * h * ch := by
    rw [flipXOuter_length]
    exact hlen
  have S1 := flipXOuter_spec ch w h hch d hlen hsz h le_rfl
  have S2 := flipXOuter_spec ch w h hch (flipXOuter ch w d h) hlen1 hsz h le_rfl
  apply List.ext_getElem
  · rw [flipXOuter_length, flipXOuter_length]
  · intro i h1 h2
    have hiw : i < w * h * ch := by
      rw [flipXOuter_length, flipXOuter_length, hlen] at h1
      exact h1
    obtain ⟨y, x, k, hy, hx, hk, rfl⟩ := pix_decompose ch w h i hiw
    rw [← byteAt_eq_getElem _ _ h1, ← byteAt_eq_getElem _ _ h2]
    rw [S2.1 y hy x hx k hk, S1.1 y hy (w - 1 - x) (by omega) k hk]
    have e : w - 1 - (w - 1 - x) = x := by omega
    rw [e]
/-- The `FlipY` inner loop preserves the buffer length. -/
theorem flipYInner_length (ch w h x : Nat) (d : List Nat) :
    ∀ n, (flipYInner ch w h x d n).length = d.length := by
  intro n
  induction n with
  | zero => rfl
  | succ m ih => rw [flipYInner, swapPixel_length, ih]

/-- Invariant of the `FlipY` inner loop after `n ≤ height / 2` steps on
column `x`: the first `n` rows of the column and their mirrors are
exchanged, every other position untouched. -/
theorem flipYInner_spec (ch w h x : Nat) (hch : ch = 3 ∨ ch = 4) (d : List Nat)
    (hlen : d.length = w * h * ch) (hsz : w * h * ch < 2 ^ 32) (hx : x < w) :
    ∀ n, n ≤ h / 2 →
      (∀ y, y < n → ∀ k, k < ch →
        byteAt (flipYInner ch w h x d n) (ch * (y * w + x) + k) =
          byteAt d (ch * ((h - 1 - y) * w + x) + k) ∧
        byteAt (flipYInner ch w h x d n) (ch * ((h - 1 - y) * w + x) + k) =
          byteAt d (ch * (y * w + x) + k)) ∧
      (∀ yq xq kq, yq < h → xq < w → kq < ch → (xq ≠ x ∨ (n ≤ yq ∧ yq < h - n)) →
        byteAt (flipYInner ch w h x d n) (ch * (yq * w + xq) + kq) =
          byteAt d (ch * (yq * w + xq) + kq)) := by
  intro n
  induction n with
  | zero =>
    intro _
    exact ⟨fun y hy => absurd hy (Nat.not_lt_zero y), fun yq xq kq _ _ _ _ => rfl⟩
  | succ n ih =>
    intro hn1
    have hn : n ≤ h / 2 := by omega
    have IH := ih hn
    have hhh : 2 * n + 2 ≤ h := by omega
    have hb1 : ch * (n * w + x) + ch ≤ w * h * ch := pixpos_bound ch w h x n hx (by omega)
    have hb2 : ch * ((h - 1 - n) * w + x) + ch ≤ w * h * ch :=
      pixpos_bound ch w h x (h - 1 - n) hx (by omega)
    have hm1 : ch * (n * w + x) % 2 ^ 32 = ch * (n * w + x) := Nat.mod_eq_of_lt (by omega)
    have hm2 : ch * ((h - 1 - n) * w + x) % 2 ^ 32 = ch * ((h - 1 - n) * w + x) :=
      Nat.mod_eq_of_lt (by omega)
    have hsep : ch * (n * w + x) + ch ≤ ch * ((h - 1 - n) * w + x) := by
      have h1 : ch * (n * w + x) + ch = ch * (n * w + x + 1) := by ring
      have h2 : (n + 1) * w ≤ (h - 1 - n) * w := Nat.mul_le_mul_right w (by omega)
      have h3 : n * w + w = (n + 1) * w := by ring
      have h4 : ch * (n * w + x + 1) ≤ ch * ((h - 1 - n) * w + x) :=
        Nat.mul_le_mul_left ch (by omega)
      omega
    have hlen' : (flipYInner ch w h x d n).length = d.length := flipYInner_length ch w h x d n
    have hstep : flipYInner ch w h x d (n + 1) =
        swapPixel ch (flipYInner ch w h x d n) (ch * (n * w + x)) (ch * ((h - 1 - n) * w + x)) := by
      rw [flipYInner, hm1, hm2]
    constructor
    · intro y hy k hk
      rcases Nat.lt_or_ge y n with hyn | hyn
      · have hs1 := pix_range_side ch (y * w + x) (n * w + x) k
          (pixIndex_ne w y x n x hx hx (Or.inl (by omega))) hk
        have hs2 := pix_range_side ch (y * w + x) ((h - 1 - n) * w + x) k
          (pixIndex_ne w y x (h - 1 - n) x hx hx (Or.inl (by omega))) hk
        have ht1 := pix_range_side ch ((h - 1 - y) * w + x) (n * w + x) k
          (pixIndex_ne w (h - 1 - y) x n x hx hx (Or.inl (by omega))) hk
        have ht2 := pix_range_side ch ((h - 1 - y) * w + x) ((h - 1 - n) * w + x) k
          (pixIndex_ne w (h - 1 - y) x (h - 1 - n) x hx hx (Or.inl (by omega))) hk
        refine ⟨?_, ?_⟩
        · rw [hstep, swapPixel_byteAt_outside ch hch _ _ _ hsep (by omega) _ (by omega)]
          exact (IH.1 y hyn k hk).1
        · rw [hstep, swapPixel_byteAt_outside ch hch _ _ _ hsep (by omega) _ (by omega)]
          exact (IH.1 y hyn k hk).2
      · have hye : y = n := by omega
        subst hye
        refine ⟨?_, ?_⟩
        · rw [hstep, swapPixel_byteAt_left ch hch _ _ _ hsep (by omega) k hk]
          exact IH.2 (h - 1 - y) x k (by omega) hx hk (Or.inr ⟨by omega, by omega⟩)
        · rw [hstep, swapPixel_byteAt_right ch hch _ _ _ hsep (by omega) k hk]
          exact IH.2 y x k (by omega) hx hk (Or.inr ⟨by omega, by omega⟩)
    · intro yq xq kq hyq hxq hkq hcond
      have hA1 : yq * w + xq ≠ n * w + x := by
        rcases hcond with hc | hc
        · exact pixIndex_ne w yq xq n x hxq hx (Or.inr hc)
        · exact pixIndex_ne w yq xq n x hxq hx (Or.inl (by omega))
      have hA2 : yq * w + xq ≠ (h - 1 - n) * w + x := by
        rcases hcond with hc | hc
        · exact pixIndex_ne w yq xq (h - 1 - n) x hxq hx (Or.inr hc)
        · exact pixIndex_ne w yq xq (h - 1 - n) x hxq hx (Or.inl (by omega))
      have hs1 := pix_range_side ch (yq * w + xq) (n * w + x) kq hA1 hkq
      have hs2 := pix_range_side ch (yq * w + xq) ((h - 1 - n) * w + x) kq hA2 hkq
      rw [hstep, swapPixel_byteAt_outside ch hch _ _ _ hsep (by omega) _ (by omega)]
      exact IH.2 yq xq kq hyq hxq hkq (by
        rcases hcond with hc | hc
        · exact Or.inl hc
        · exact Or.inr ⟨by omega, by omega⟩)

/-- The complete `FlipY` column pass mirrors every pixel of column `x`
and leaves other columns untouched. -/
theorem flipYInner_full (ch w h x : Nat) (hch : ch = 3 ∨ ch = 4) (d : List Nat)
    (hlen : d.length = w * h * ch) (hsz : w * h * ch < 2 ^ 32) (hx : x < w) :
    (∀ y, y < h → ∀ k, k < ch →
      byteAt (flipYInner ch w h x d (h / 2)) (ch * (y * w + x) + k) =
        byteAt d (ch * ((h - 1 - y) * w + x) + k)) ∧
    (∀ yq xq kq, yq < h → xq < w → kq < ch → xq ≠ x →
      byteAt (flipYInner ch w h x d (h / 2)) (ch * (yq * w + xq) + kq) =
        byteAt d (ch * (yq * w + xq) + kq)) := by
  have S := flipYInner_spec ch w h x hch d hlen hsz hx (h / 2) le_rfl
  constructor
  · intro y hy k hk
    rcases Nat.lt_or_ge y (h / 2) with h1 | h1
    · exact (S.1 y h1 k hk).1
    · rcases Nat.lt_or_ge (h - 1 - y) (h / 2) with h2 | h2
      · have hmy : h - 1 - (h - 1 - y) = y := by omega
        have hmm := (S.1 (h - 1 - y) h2 k hk).2
        rw [hmy] at hmm
        exact hmm
      · have hmid : h - 1 - y = y := by omega
        rw [hmid]
        exact S.2 y x k hy hx hk (Or.inr ⟨h1, by omega⟩)
  · intro yq xq kq hyq hxq hkq hne
    exact S.2 yq xq kq hyq hxq hkq (Or.inl hne)

/-- The `FlipY` outer loop preserves the buffer length. -/
theorem flipYOuter_length (ch w h : Nat) (d : List Nat) :
    ∀ m, (flipYOuter ch w h d m).length = d.length := by
  intro m
  induction m with
  | zero => rfl
  | succ n ih => rw [flipYOuter, flipYInner_length, ih]

/-- Invariant of the `FlipY` outer loop: columns below `m` are mirrored
vertically, columns at or above `m` untouched. -/
theorem flipYOuter_spec (ch w h : Nat) (hch : ch = 3 ∨ ch = 4) (d : List Nat)
    (hlen : d.length = w * h * ch) (hsz : w * h * ch < 2 ^ 32) :
    ∀ m, m ≤ w →
      (∀ x, x < m → ∀ y, y < h → ∀ k, k < ch →
        byteAt (flipYOuter ch w h d m) (ch * (y * w + x) + k) =
          byteAt d (ch * ((h - 1 - y) * w + x) + k)) ∧
      (∀ yq xq kq, yq < h → xq < w → kq < ch → m ≤ xq →
        byteAt (flipYOuter ch w h d m) (ch * (yq * w + xq) + kq) =
          byteAt d (ch * (yq * w + xq) + kq)) := by
  intro m
  induction m with
  | zero =>
    intro _
    exact ⟨fun x hx => absurd hx (Nat.not_lt_zero x), fun yq xq kq _ _ _ _ => rfl⟩
  | succ m ih =>
    intro hm1
    have IH := ih (by omega)
    have hlenO : (flipYOuter ch w h d m).length = w * h * ch := by
      rw [flipYOuter_length]
      exact hlen
    have F := flipYInner_full ch w h m hch (flipYOuter ch w h d m) hlenO hsz (by omega)
    constructor
    · intro x hx y hy k hk
      rcases Nat.lt_or_ge x m with hxm | hxm
      · rw [flipYOuter, F.2 y x k hy (by omega) hk (by omega)]
        exact IH.1 x hxm y hy k hk
      · have hxe : x = m := by omega
        subst hxe
        rw [flipYOuter, F.1 y hy k hk]
        exact IH.2 (h - 1 - y) x k (by omega) (by omega) hk (by omega)
    · intro yq xq kq hyq hxq hkq hge
      rw [flipYOuter, F.2 yq xq kq hyq hxq hkq (by omega)]
      exact IH.2 yq xq kq hyq hxq hkq (by omega)

/-- Running the full `FlipY` loops twice restores the buffer exactly. -/
theorem flipYOuter_involution (ch w h : Nat) (hch : ch = 3 ∨ ch = 4) (d : List Nat)
    (hlen : d.length = w * h * ch) (hsz : w * h * ch < 2 ^ 32) :
    flipYOuter ch w h (flipYOuter ch w h d w) w = d := by
  have hlen1 : (flipYOuter ch w h d w).length = w * h * ch := by
    rw [flipYOuter_length]
    exact hlen
  have S1 := flipYOuter_spec ch w h hch d hlen hsz w le_rfl
  have S2 := flipYOuter_spec ch w h hch (flipYOuter ch w h d w) hlen1 hsz w le_rfl
  apply List.ext_getElem
  · rw [flipYOuter_length, flipYOuter_length]
  · intro i h1 h2
    have hiw : i < w * h * ch := by
      rw [flipYOuter_length, flipYOuter_length, hlen] at h1
      exact h1
    obtain ⟨y, x, k, hy, hx, hk, rfl⟩ := pix_decompose ch w h i hiw
    rw [← byteAt_eq_getElem _ _ h1, ← byteAt_eq_getElem _ _ h2]
    rw [S2.1 x hx y hy k hk, S1.1 x hx (h - 1 - y) (by omega) k hk]
    have e : h - 1 - (h - 1 - y) = y := by omega
    rw [e]
/-- C9: on any image satisfying the buffer-layout invariant
(`data.length = width * height * channels`, 3 or 4 channels, sizes below
the `uint32_t` range so position arithmetic does not wrap), `FlipX` twice
restores the image exactly, and so does `FlipY` — alpha bytes included,
since the swap moves all `channels` bytes of each pixel. -/
theorem flip_involutions (s : BMP)
    (hch : s.channels = 3 ∨ s.channels = 4)
    (hlen : s.data.length =
      s.bmp_info_header.width.toNat * s.bmp_info_header.height.toNat * s.channels)
    (hsz : s.bmp_info_header.width.toNat * s.bmp_info_header.height.toNat * s.channels
      < 2 ^ 32) :
    s.FlipX.FlipX = s ∧ s.FlipY.FlipY = s := by
  constructor
  · have hD := flipXOuter_involution s.channels s.bmp_info_header.width.toNat
      s.bmp_info_header.height.toNat hch s.data hlen hsz
    calc s.FlipX.FlipX
        = { s with data := (flipXOuter s.channels s.bmp_info_header.width.toNat
            (flipXOuter s.channels s.bmp_info_header.width.toNat s.data
              s.bmp_info_header.height.toNat) s.bmp_info_header.height.toNat) } := rfl
      _ = { s with data := s.data } := by rw [hD]
      _ = s := rfl
  · have hD := flipYOuter_involution s.channels s.bmp_info_header.width.toNat
      s.bmp_info_header.height.toNat hch s.data hlen hsz
    calc s.FlipY.FlipY
        = { s with data := (flipYOuter s.channels s.bmp_info_header.width.toNat
            s.bmp_info_header.height.toNat
            (flipYOuter s.channels s.bmp_info_header.width.toNat
              s.bmp_info_header.height.toNat s.data s.bmp_info_header.width.toNat)
            s.bmp_info_header.width.toNat) } := rfl
      _ = { s with data := s.data } := by rw [hD]
      _ = s := rfl

/-- C9 witness: both double flips evaluated on the concrete 3×2 32-bit
image `flipFixture`. -/
theorem flip_involutions_witness :
    flipFixture.FlipX.FlipX = flipFixture ∧ flipFixture.FlipY.FlipY = flipFixture :=
  flip_involutions flipFixture (by decide) (by decide) (by decide)

/-- `BMPFileHeader` is 14 bytes on disk. -/
theorem fileHeaderBytes_length (fh : BMPFileHeaderS) : (fileHeaderBytes fh).length = 14 := rfl

/-- `BMPInfoHeader` is 40 bytes on disk. -/
theorem infoHeaderBytes_length (ih : BMPInfoHeaderS) : (infoHeaderBytes ih).length = 40 := rfl

/-- `BMPColorHeader` is 84 bytes on disk. -/
theorem colorHeaderBytes_default_length : (colorHeaderBytes defaultColorHeader).length = 84 :=
  rfl

/-- Parsing the serialized file header recovers every field. -/
theorem parseFileHeader_roundtrip (ft fs r1 r2 off : Nat) (h1 : ft < 2 ^ 16)
    (h2 : fs < 2 ^ 32) (h3 : r1 < 2 ^ 16) (h4 : r2 < 2 ^ 16) (h5 : off < 2 ^ 32) :
    parseFileHeader (fileHeaderBytes ⟨ft, fs, r1, r2, off⟩) = ⟨ft, fs, r1, r2, off⟩ := by
  have e1 : rdU16 (fileHeaderBytes ⟨ft, fs, r1, r2, off⟩) 0 =
      ft % 2 ^ 8 + 2 ^ 8 * (ft / 2 ^ 8 % 2 ^ 8) := by rfl
  have e2 : rdU32 (fileHeaderBytes ⟨ft, fs, r1, r2, off⟩) 2 =
      fs % 2 ^ 8 + 2 ^ 8 * (fs / 2 ^ 8 % 2 ^ 8) + 2 ^ 16 * (fs / 2 ^ 16 % 2 ^ 8) +
        2 ^ 24 * (fs / 2 ^ 24 % 2 ^ 8) := by rfl
  have e3 : rdU16 (fileHeaderBytes ⟨ft, fs, r1, r2, off⟩) 6 =
      r1 % 2 ^ 8 + 2 ^ 8 * (r1 / 2 ^ 8 % 2 ^ 8) := by rfl
  have e4 : rdU16 (fileHeaderBytes ⟨ft, fs, r1, r2, off⟩) 8 =
      r2 % 2 ^ 8 + 2 ^ 8 * (r2 / 2 ^ 8 % 2 ^ 8) := by rfl
  have e5 : rdU32 (fileHeaderBytes ⟨ft, fs, r1, r2, off⟩) 10 =
      off % 2 ^ 8 + 2 ^ 8 * (off / 2 ^ 8 % 2 ^ 8) + 2 ^ 16 * (off / 2 ^ 16 % 2 ^ 8) +
        2 ^ 24 * (off / 2 ^ 24 % 2 ^ 8) := by rfl
  unfold parseFileHeader
  rw [e1, e2, e3, e4, e5]
  simp only [BMPFileHeaderS.mk.injEq]
  refine ⟨by omega, by omega, by omega, by omega, by omega⟩
/-- Two's-complement decoding of a `uint32_t` read. -/
theorem rdI32_of_rdU32 (l : List Nat) (p : Nat) (v : Int) (hlo : -2 ^ 31 ≤ v)
    (hhi : v < 2 ^ 31) (he : rdU32 l p = (v % 2 ^ 32).toNat) : rdI32 l p = v := by
  simp only [rdI32, he]
  split <;> omega

set_option maxHeartbeats 2000000 in
/-- Parsing the serialized info header recovers every field. -/
theorem parseInfoHeader_roundtrip (sz : Nat) (w h : Int) (pl bc cp si : Nat) (xp yp : Int)
    (cu ci : Nat) (hsz : sz < 2 ^ 32) (hw1 : -2 ^ 31 ≤ w) (hw2 : w < 2 ^ 31)
    (hh1 : -2 ^ 31 ≤ h) (hh2 : h < 2 ^ 31) (hpl : pl < 2 ^ 16) (hbc : bc < 2 ^ 16)
    (hcp : cp < 2 ^ 32) (hsi : si < 2 ^ 32) (hxp1 : -2 ^ 31 ≤ xp) (hxp2 : xp < 2 ^ 31)
    (hyp1 : -2 ^ 31 ≤ yp) (hyp2 : yp < 2 ^ 31) (hcu : cu < 2 ^ 32) (hci : ci < 2 ^ 32) :
    parseInfoHeader (infoHeaderBytes ⟨sz, w, h, pl, bc, cp, si, xp, yp, cu, ci⟩) =
      ⟨sz, w, h, pl, bc, cp, si, xp, yp, cu, ci⟩ := by
  have e0 : rdU32 (infoHeaderBytes ⟨sz, w, h, pl, bc, cp, si, xp, yp, cu, ci⟩) 0 =
      sz % 2 ^ 8 + 2 ^ 8 * (sz / 2 ^ 8 % 2 ^ 8) + 2 ^ 16 * (sz / 2 ^ 16 % 2 ^ 8) +
        2 ^ 24 * (sz / 2 ^ 24 % 2 ^ 8) := by rfl
  have e1 : rdU32 (infoHeaderBytes ⟨sz, w, h, pl, bc, cp, si, xp, yp, cu, ci⟩) 4 =
      (w % 2 ^ 32).toNat % 2 ^ 8 + 2 ^ 8 * ((w % 2 ^ 32).toNat / 2 ^ 8 % 2 ^ 8) +
        2 ^ 16 * ((w % 2 ^ 32).toNat / 2 ^ 16 % 2 ^ 8) +
        2 ^ 24 * ((w % 2 ^ 32).toNat / 2 ^ 24 % 2 ^ 8) := by rfl
  have e2 : rdU32 (infoHeaderBytes ⟨sz, w, h, pl, bc, cp, si, xp, yp, cu, ci⟩) 8 =
      (h % 2 ^ 32).toNat % 2 ^ 8 + 2 ^ 8 * ((h % 2 ^ 32).toNat / 2 ^ 8 % 2 ^ 8) +
        2 ^ 16 * ((h % 2 ^ 32).toNat / 2 ^ 16 % 2 ^ 8) +
        2 ^ 24 * ((h % 2 ^ 32).toNat / 2 ^ 24 % 2 ^ 8) := by rfl
  have e3 : rdU16 (infoHeaderBytes ⟨sz, w, h, pl, bc, cp, si, xp, yp, cu, ci⟩) 12 =
      pl % 2 ^ 8 + 2 ^ 8 * (pl / 2 ^ 8 % 2 ^ 8) := by rfl
  have e4 : rdU16 (infoHeaderBytes ⟨sz, w, h, pl, bc, cp, si, xp, yp, cu, ci⟩) 14 =
      bc % 2 ^ 8 + 2 ^ 8 * (bc / 2 ^ 8 % 2 ^ 8) := by rfl
  have e5 : rdU32 (infoHeaderBytes ⟨sz, w, h, pl, bc, cp, si, xp, yp, cu, ci⟩) 16 =
      cp % 2 ^ 8 + 2 ^ 8 * (cp / 2 ^ 8 % 2 ^ 8) + 2 ^ 16 * (cp / 2 ^ 16 % 2 ^ 8) +
        2 ^ 24 * (cp / 2 ^ 24 % 2 ^ 8) := by rfl
  have e6 : rdU32 (infoHeaderBytes ⟨sz, w, h, pl, bc, cp, si, xp, yp, cu, ci⟩) 20 =
      si % 2 ^ 8 + 2 ^ 8 * (si / 2 ^ 8 % 2 ^ 8) + 2 ^ 16 * (si / 2 ^ 16 % 2 ^ 8) +
        2 ^ 24 * (si / 2 ^ 24 % 2 ^ 8) := by rfl
  have e7 : rdU32 (infoHeaderBytes ⟨sz, w, h, pl, bc, cp, si, xp, yp, cu, ci⟩) 24 =
      (xp % 2 ^ 32).toNat % 2 ^ 8 + 2 ^ 8 * ((xp % 2 ^ 32).toNat / 2 ^ 8 % 2 ^ 8) +
        2 ^ 16 * ((xp % 2 ^ 32).toNat / 2 ^ 16 % 2 ^ 8) +
        2 ^ 24 * ((xp % 2 ^ 32).toNat / 2 ^ 24 % 2 ^ 8) := by rfl
  have e8 : rdU32 (infoHeaderBytes ⟨sz, w, h, pl, bc, cp, si, xp, yp, cu, ci⟩) 28 =
      (yp % 2 ^ 32).toNat % 2 ^ 8 + 2 ^ 8 * ((yp % 2 ^ 32).toNat / 2 ^ 8 % 2 ^ 8) +
        2 ^ 16 * ((yp % 2 ^ 32).toNat / 2 ^ 16 % 2 ^ 8) +
        2 ^ 24 * ((yp % 2 ^ 32).toNat / 2 ^ 24 % 2 ^ 8) := by rfl
  have e9 : rdU32 (infoHeaderBytes ⟨sz, w, h, pl, bc, cp, si, xp, yp, cu, ci⟩) 32 =
      cu % 2 ^ 8 + 2 ^ 8 * (cu / 2 ^ 8 % 2 ^ 8) + 2 ^ 16 * (cu / 2 ^ 16 % 2 ^ 8) +
        2 ^ 24 * (cu / 2 ^ 24 % 2 ^ 8) := by rfl
  have e10 : rdU32 (infoHeaderBytes ⟨sz, w, h, pl, bc, cp, si, xp, yp, cu, ci⟩) 36 =
      ci % 2 ^ 8 + 2 ^ 8 * (ci / 2 ^ 8 % 2 ^ 8) + 2 ^ 16 * (ci / 2 ^ 16 % 2 ^ 8) +
        2 ^ 24 * (ci / 2 ^ 24 % 2 ^ 8) := by rfl
  unfold parseInfoHeader
  rw [rdI32_of_rdU32 _ 4 w hw1 hw2 (by rw [e1]; omega),
    rdI32_of_rdU32 _ 8 h hh1 hh2 (by rw [e2]; omega),
    rdI32_of_rdU32 _ 24 xp hxp1 hxp2 (by rw [e7]; omega),
    rdI32_of_rdU32 _ 28 yp hyp1 hyp2 (by rw [e8]; omega),
    e0, e3, e4, e5, e6, e9, e10]
  simp only [BMPInfoHeaderS.mk.injEq]
  refine ⟨by omega, trivial, trivial, by omega, by omega, by omega, by omega, trivial,
    trivial, by omega, by omega⟩
/-- Parsing the serialized default color header recovers it. -/
theorem parseColorHeader_roundtrip :
    parseColorHeader (colorHeaderBytes defaultColorHeader) = defaultColorHeader := by
  decide

/-- The mask check is silent on the expected default masks. -/
theorem check_color_header_default : check_color_header defaultColorHeader = [] := by
  decide
/-- Each written pixel row is exactly `row_stride` bytes. -/
theorem writeRows_row_length (d : List Nat) (rs h y : Nat) (hd : rs * h ≤ d.length)
    (hy : y < h) : ((d.drop (rs * y)).take rs).length = rs := by
  simp only [List.length_take, List.length_drop]
  have h1 : rs * (y + 1) ≤ rs * h := Nat.mul_le_mul_left rs (by omega)
  have h2 : rs * (y + 1) = rs * y + rs := by ring
  omega

/-- `n` padded rows occupy `n * (row_stride + pad)` bytes. -/
theorem writeRows_length (d : List Nat) (rs pad h : Nat) (hd : rs * h ≤ d.length) :
    ∀ n, n ≤ h → (writeRows d rs pad n).length = n * (rs + pad) := by
  intro n
  induction n with
  | zero => intro _; simp [writeRows]
  | succ m ih =>
    intro hm
    rw [writeRows, List.length_append, ih (by omega), List.length_append,
      writeRows_row_length d rs h m hd (by omega), List.length_replicate]
    ring

/-- The bytes at row `n` of the padded serialization are row `n` of the
buffer. -/
theorem writeRows_drop (d : List Nat) (rs pad : Nat) :
    ∀ h n, n < h → rs * h ≤ d.length →
      ((writeRows d rs pad h).drop (n * (rs + pad))).take rs = (d.drop (rs * n)).take rs := by
  intro h
  induction h with
  | zero => intro n hn; omega
  | succ m ih =>
    intro n hn hd
    rw [writeRows]
    rcases Nat.lt_or_ge n m with hnm | hnm
    · have hlenA : (writeRows d rs pad m).length = m * (rs + pad) :=
        writeRows_length d rs pad (m + 1) hd m (by omega)
      rw [List.drop_append_eq_append_drop]
      have hz : n * (rs + pad) - (writeRows d rs pad m).length = 0 := by
        rw [hlenA]
        have := Nat.mul_le_mul_right (rs + pad) (show n ≤ m by omega)
        omega
      rw [hz, List.drop_zero, List.take_append_eq_append_take]
      have hlong : rs ≤ ((writeRows d rs pad m).drop (n * (rs + pad))).length := by
        simp only [List.length_drop, hlenA]
        have h1 : (n + 1) * (rs + pad) ≤ m * (rs + pad) :=
          Nat.mul_le_mul_right (rs + pad) (by omega)
        have h2 : (n + 1) * (rs + pad) = n * (rs + pad) + (rs + pad) := by ring
        omega
      have hz2 : rs - ((writeRows d rs pad m).drop (n * (rs + pad))).length = 0 := by omega
      rw [hz2, List.take_zero, List.append_nil]
      exact ih n hnm (by
        have h1 : rs * m ≤ rs * (m + 1) := Nat.mul_le_mul_left rs (by omega)
        omega)
    · have hne : n = m := by omega
      subst hne
      have hlenA : (writeRows d rs pad n).length = n * (rs + pad) :=
        writeRows_length d rs pad (n + 1) hd n (by omega)
      rw [List.drop_append_eq_append_drop, List.drop_eq_nil_of_le (by omega), hlenA]
      have hz : n * (rs + pad) - n * (rs + pad) = 0 := by omega
      rw [hz, List.drop_zero, List.nil_append, List.take_append_eq_append_take]
      have hrow : ((d.drop (rs * n)).take rs).length = rs :=
        writeRows_row_length d rs (n + 1) n hd (by omega)
      have hz2 : rs - ((d.drop (rs * n)).take rs).length = 0 := by omega
      rw [hz2, List.take_zero, List.append_nil, List.take_of_length_le (by omega)]

/-- Reading `n` rows back from the padded serialization recovers the
first `n` buffer rows. -/
theorem readRows_writeRows (pre d : List Nat) (rs pad h : Nat) (hd : d.length = rs * h) :
    ∀ n, n ≤ h →
      readRows (pre ++ writeRows d rs pad h) pre.length rs pad n = some (d.take (rs * n)) := by
  intro n
  induction n with
  | zero => intro _; simp [readRows]
  | succ m ih =>
    intro hm
    rw [readRows]
    simp only [ih (by omega)]
    have hwl : (writeRows d rs pad h).length = h * (rs + pad) :=
      writeRows_length d rs pad h (by omega) h le_rfl
    have hbound : pre.length + m * (rs + pad) + (rs + pad) ≤
        (pre ++ writeRows d rs pad h).length := by
      rw [List.length_append, hwl]
      have h1 : (m + 1) * (rs + pad) ≤ h * (rs + pad) :=
        Nat.mul_le_mul_right (rs + pad) (by omega)
      have h2 : (m + 1) * (rs + pad) = m * (rs + pad) + (rs + pad) := by ring
      omega
    rw [if_pos hbound]
    have hdrop : (pre ++ writeRows d rs pad h).drop (pre.length + m * (rs + pad)) =
        (writeRows d rs pad h).drop (m * (rs + pad)) := by
      rw [List.drop_append_eq_append_drop, List.drop_eq_nil_of_le (by omega),
        List.nil_append]
      congr 1
      omega
    rw [hdrop, writeRows_drop d rs pad h m (by omega) (by omega), ← List.take_add,
      show rs * m + rs = rs * (m + 1) from by ring]
/-- With no padding the row serialization is the plain buffer. -/
theorem writeRows_pad_zero (d : List Nat) (rs : Nat) :
    ∀ n, rs * n ≤ d.length → writeRows d rs 0 n = d.take (rs * n) := by
  intro n
  induction n with
  | zero => intro _; simp [writeRows]
  | succ m ih =>
    intro hm
    have h1 : rs * (m + 1) = rs * m + rs := by ring
    rw [writeRows, List.replicate_zero, List.append_nil, ih (by omega), ← List.take_add, h1]

/-- The row-reading loop over an unpadded pixel section returns the
section unchanged. -/
theorem readRows_contiguous (pre d : List Nat) (rs h : Nat) (hd : d.length = rs * h) :
    readRows (pre ++ d) pre.length rs 0 h = some d := by
  have h1 := readRows_writeRows pre d rs 0 h hd h le_rfl
  rw [writeRows_pad_zero d rs h (by omega)] at h1
  have ht : d.take (rs * h) = d := by
    rw [← hd]
    exact List.take_length d
  rw [ht] at h1
  exact h1

set_option maxHeartbeats 2000000 in
/-- Decoding a serialized canonical 32-bit image: the magic, masks and
height checks are silent and every header field and pixel byte is
recovered. -/
theorem read_layout32 (fs : Nat) (w h : Int) (data : List Nat)
    (hw1 : 0 < w) (hw2 : w < 2 ^ 31) (hh1 : 0 < h) (hh2 : h < 2 ^ 31)
    (hfs : fs = 138 + data.length) (hfs32 : fs < 2 ^ 32)
    (hdl : data.length = w.toNat * h.toNat * 4) :
    BMP.read (fileHeaderBytes ⟨0x4D42, fs, 0, 0, 138⟩ ++
        (infoHeaderBytes ⟨124, w, h, 1, 32, 3, 0, 0, 0, 0, 0⟩ ++
          (colorHeaderBytes defaultColorHeader ++ data))) =
      some ([], ⟨⟨0x4D42, fs, 0, 0, 138⟩, ⟨124, w, h, 1, 32, 3, 0, 0, 0, 0, 0⟩,
        defaultColorHeader, data, 4, if w % 4 = 0 then 0 else w.toNat * 4⟩) := by
  have hlenB : (fileHeaderBytes ⟨0x4D42, fs, 0, 0, 138⟩ ++
      (infoHeaderBytes ⟨124, w, h, 1, 32, 3, 0, 0, 0, 0, 0⟩ ++
        (colorHeaderBytes defaultColorHeader ++ data))).length = 138 + data.length := by
    simp only [List.length_append, fileHeaderBytes_length, infoHeaderBytes_length,
      colorHeaderBytes_default_length]
    omega
  have hslice1 : (fileHeaderBytes ⟨0x4D42, fs, 0, 0, 138⟩ ++
      (infoHeaderBytes ⟨124, w, h, 1, 32, 3, 0, 0, 0, 0, 0⟩ ++
        (colorHeaderBytes defaultColorHeader ++ data))).take 14 =
      fileHeaderBytes ⟨0x4D42, fs, 0, 0, 138⟩ := by rfl
  have hslice2 : ((fileHeaderBytes ⟨0x4D42, fs, 0, 0, 138⟩ ++
      (infoHeaderBytes ⟨124, w, h, 1, 32, 3, 0, 0, 0, 0, 0⟩ ++
        (colorHeaderBytes defaultColorHeader ++ data))).drop 14).take 40 =
      infoHeaderBytes ⟨124, w, h, 1, 32, 3, 0, 0, 0, 0, 0⟩ := by rfl
  have hslice3 : ((fileHeaderBytes ⟨0x4D42, fs, 0, 0, 138⟩ ++
      (infoHeaderBytes ⟨124, w, h, 1, 32, 3, 0, 0, 0, 0, 0⟩ ++
        (colorHeaderBytes defaultColorHeader ++ data))).drop 54).take 84 =
      colorHeaderBytes defaultColorHeader := by rfl
  have hdropData : (fileHeaderBytes ⟨0x4D42, fs, 0, 0, 138⟩ ++
      (infoHeaderBytes ⟨124, w, h, 1, 32, 3, 0, 0, 0, 0, 0⟩ ++
        (colorHeaderBytes defaultColorHeader ++ data))).drop 138 = data := by rfl
  have hP1 : parseFileHeader ((fileHeaderBytes ⟨0x4D42, fs, 0, 0, 138⟩ ++
      (infoHeaderBytes ⟨124, w, h, 1, 32, 3, 0, 0, 0, 0, 0⟩ ++
        (colorHeaderBytes defaultColorHeader ++ data))).take 14) =
      ⟨0x4D42, fs, 0, 0, 138⟩ := by
    rw [hslice1]
    exact parseFileHeader_roundtrip 0x4D42 fs 0 0 138 (by omega) (by omega) (by omega)
      (by omega) (by omega)
  have hP2 : parseInfoHeader (((fileHeaderBytes ⟨0x4D42, fs, 0, 0, 138⟩ ++
      (infoHeaderBytes ⟨124, w, h, 1, 32, 3, 0, 0, 0, 0, 0⟩ ++
        (colorHeaderBytes defaultColorHeader ++ data))).drop 14).take 40) =
      ⟨124, w, h, 1, 32, 3, 0, 0, 0, 0, 0⟩ := by
    rw [hslice2]
    exact parseInfoHeader_roundtrip 124 w h 1 32 3 0 0 0 0 0 (by omega) (by omega) (by omega)
      (by omega) (by omega) (by omega) (by omega) (by omega) (by omega) (by omega) (by omega)
      (by omega) (by omega) (by omega) (by omega)
  have hP3 : parseColorHeader (((fileHeaderBytes ⟨0x4D42, fs, 0, 0, 138⟩ ++
      (infoHeaderBytes ⟨124, w, h, 1, 32, 3, 0, 0, 0, 0, 0⟩ ++
        (colorHeaderBytes defaultColorHeader ++ data))).drop (14 + 40)).take 84) =
      defaultColorHeader := by
    rw [show (14 + 40 : Nat) = 54 from rfl, hslice3]
    exact parseColorHeader_roundtrip
  have hds : ((w * h * ((32 : Nat) : Int)) / 8).toNat = data.length := by
    have e : w * h * ((32 : Nat) : Int) = (w * h * 4) * 8 := by push_cast; ring
    rw [e, Int.mul_ediv_cancel _ (by omega)]
    obtain ⟨wn, rfl⟩ : ∃ n : Nat, w = (n : Int) := ⟨w.toNat, (Int.toNat_of_nonneg (by omega)).symm⟩
    obtain ⟨hn, rfl⟩ : ∃ n : Nat, h = (n : Int) := ⟨h.toNat, (Int.toNat_of_nonneg (by omega)).symm⟩
    rw [hdl]
    simp only [Int.toNat_natCast]
    omega
  have hg1 : (14 + 40 : Nat) ≤ 138 + data.length := by omega
  have hg2 : (14 + 40 + 84 : Nat) ≤ 138 + data.length := by omega
  have hg3 : (40 + 84 : Nat) ≤ 124 := by omega
  have hneg : ¬(h < 0) := by omega
  have hfsm : (14 + 40 + 84 + data.length) % 2 ^ 32 = fs := by omega
  simp only [BMP.read, hlenB, hP1, hP2, hP3, hdropData, hds, check_color_header_default,
    hg1, hg2, hg3, hneg, hfsm, if_true, if_false, ite_true, ite_false, List.take_length,
    le_refl, List.append_nil, List.nil_append]
  have hrs : ((w * ((32 : Nat) : Int)) / 8).toNat = w.toNat * 4 := by
    have e : w * ((32 : Nat) : Int) = (w * 4) * 8 := by push_cast; ring
    rw [e, Int.mul_ediv_cancel _ (by omega)]
    omega
  have hfsm2 : (14 + 40 + 84 + data.length + h.toNat * 0) % 2 ^ 32 = fs := by omega
  by_cases hw4 : w % 4 = 0
  · simp only [hw4, if_true, ite_true]
    norm_num
  · have hmsa : make_stride_aligned (w.toNat * 4) 4 = w.toNat * 4 := by
      unfold make_stride_aligned
      omega
    have hrr : readRows (fileHeaderBytes ⟨0x4D42, fs, 0, 0, 138⟩ ++
        (infoHeaderBytes ⟨124, w, h, 1, 32, 3, 0, 0, 0, 0, 0⟩ ++
          (colorHeaderBytes defaultColorHeader ++ data))) 138 (w.toNat * 4) 0 h.toNat =
        some data := by
      have hassoc : fileHeaderBytes ⟨0x4D42, fs, 0, 0, 138⟩ ++
          (infoHeaderBytes ⟨124, w, h, 1, 32, 3, 0, 0, 0, 0, 0⟩ ++
            (colorHeaderBytes defaultColorHeader ++ data)) =
          (fileHeaderBytes ⟨0x4D42, fs, 0, 0, 138⟩ ++
            infoHeaderBytes ⟨124, w, h, 1, 32, 3, 0, 0, 0, 0, 0⟩ ++
            colorHeaderBytes defaultColorHeader) ++ data := by
        simp [List.append_assoc]
      have hplen : (fileHeaderBytes ⟨0x4D42, fs, 0, 0, 138⟩ ++
          infoHeaderBytes ⟨124, w, h, 1, 32, 3, 0, 0, 0, 0, 0⟩ ++
          colorHeaderBytes defaultColorHeader).length = 138 := by
        simp [List.length_append, fileHeaderBytes_length, infoHeaderBytes_length,
          colorHeaderBytes_default_length]
      have hc := readRows_contiguous (fileHeaderBytes ⟨0x4D42, fs, 0, 0, 138⟩ ++
          infoHeaderBytes ⟨124, w, h, 1, 32, 3, 0, 0, 0, 0, 0⟩ ++
          colorHeaderBytes defaultColorHeader) data (w.toNat * 4) h.toNat (by rw [hdl]; ring)
      rw [hplen] at hc
      rw [hassoc]
      exact hc
    simp only [hw4, if_false, ite_false, hrs, hmsa, Nat.sub_self, hrr, hfsm2]
    norm_num
set_option maxHeartbeats 2000000 in
/-- Decoding a serialized canonical 24-bit image whose width is a
multiple of 4 (no row padding). -/
theorem read_layout24_aligned (fs : Nat) (w h : Int) (data : List Nat)
    (hw1 : 0 < w) (hw2 : w < 2 ^ 31) (hh1 : 0 < h) (hh2 : h < 2 ^ 31)
    (hw4 : w % 4 = 0) (hfs : fs = 54 + data.length) (hfs32 : fs < 2 ^ 32)
    (hdl : data.length = w.toNat * h.toNat * 3) :
    BMP.read (fileHeaderBytes ⟨0x4D42, fs, 0, 0, 54⟩ ++
        (infoHeaderBytes ⟨40, w, h, 1, 24, 0, 0, 0, 0, 0, 0⟩ ++ data)) =
      some ([], ⟨⟨0x4D42, fs, 0, 0, 54⟩, ⟨40, w, h, 1, 24, 0, 0, 0, 0, 0, 0⟩,
        defaultColorHeader, data, 3, 0⟩) := by
  have hlenB : (fileHeaderBytes ⟨0x4D42, fs, 0, 0, 54⟩ ++
      (infoHeaderBytes ⟨40, w, h, 1, 24, 0, 0, 0, 0, 0, 0⟩ ++ data)).length =
      54 + data.length := by
    simp only [List.length_append, fileHeaderBytes_length, infoHeaderBytes_length]
    omega
  have hslice1 : (fileHeaderBytes ⟨0x4D42, fs, 0, 0, 54⟩ ++
      (infoHeaderBytes ⟨40, w, h, 1, 24, 0, 0, 0, 0, 0, 0⟩ ++ data)).take 14 =
      fileHeaderBytes ⟨0x4D42, fs, 0, 0, 54⟩ := by rfl
  have hslice2 : ((fileHeaderBytes ⟨0x4D42, fs, 0, 0, 54⟩ ++
      (infoHeaderBytes ⟨40, w, h, 1, 24, 0, 0, 0, 0, 0, 0⟩ ++ data)).drop 14).take 40 =
      infoHeaderBytes ⟨40, w, h, 1, 24, 0, 0, 0, 0, 0, 0⟩ := by rfl
  have hdropData : (fileHeaderBytes ⟨0x4D42, fs, 0, 0, 54⟩ ++
      (infoHeaderBytes ⟨40, w, h, 1, 24, 0, 0, 0, 0, 0, 0⟩ ++ data)).drop 54 = data := by rfl
  have hP1 : parseFileHeader ((fileHeaderBytes ⟨0x4D42, fs, 0, 0, 54⟩ ++
      (infoHeaderBytes ⟨40, w, h, 1, 24, 0, 0, 0, 0, 0, 0⟩ ++ data)).take 14) =
      ⟨0x4D42, fs, 0, 0, 54⟩ := by
    rw [hslice1]
    exact parseFileHeader_roundtrip 0x4D42 fs 0 0 54 (by omega) (by omega) (by omega)
      (by omega) (by omega)
  have hP2 : parseInfoHeader (((fileHeaderBytes ⟨0x4D42, fs, 0, 0, 54⟩ ++
      (infoHeaderBytes ⟨40, w, h, 1, 24, 0, 0, 0, 0, 0, 0⟩ ++ data)).drop 14).take 40) =
      ⟨40, w, h, 1, 24, 0, 0, 0, 0, 0, 0⟩ := by
    rw [hslice2]
    exact parseInfoHeader_roundtrip 40 w h 1 24 0 0 0 0 0 0 (by omega) (by omega) (by omega)
      (by omega) (by omega) (by omega) (by omega) (by omega) (by omega) (by omega) (by omega)
      (by omega) (by omega) (by omega) (by omega)
  have hds : ((w * h * ((24 : Nat) : Int)) / 8).toNat = data.length := by
    have e : w * h * ((24 : Nat) : Int) = (w * h * 3) * 8 := by push_cast; ring
    rw [e, Int.mul_ediv_cancel _ (by omega)]
    obtain ⟨wn, rfl⟩ : ∃ n : Nat, w = (n : Int) := ⟨w.toNat, (Int.toNat_of_nonneg (by omega)).symm⟩
    obtain ⟨hn, rfl⟩ : ∃ n : Nat, h = (n : Int) := ⟨h.toNat, (Int.toNat_of_nonneg (by omega)).symm⟩
    rw [hdl]
    simp only [Int.toNat_natCast]
    omega
  have hg1 : (14 + 40 : Nat) ≤ 54 + data.length := by omega
  have hneg : ¬(h < 0) := by omega
  have hfsm : (14 + 40 + data.length) % 2 ^ 32 = fs := by omega
  simp only [BMP.read, hlenB, hP1, hP2, hdropData, hds, hg1, hneg, hfsm, if_true, if_false,
    ite_true, ite_false, List.take_length, le_refl, List.append_nil, List.nil_append, hw4]
  norm_num
  omega
set_option maxHeartbeats 2000000 in
/-- Decoding a serialized canonical 24-bit image with row padding: the
padding bytes are skipped and the unpadded buffer is recovered. -/
theorem read_layout24_padded (fs : Nat) (w h : Int) (data : List Nat) (pad : Nat)
    (hw1 : 0 < w) (hw2 : w < 2 ^ 31) (hh1 : 0 < h) (hh2 : h < 2 ^ 31)
    (hw4 : ¬ w % 4 = 0) (hpad : pad = make_stride_aligned (w.toNat * 3) 4 - w.toNat * 3)
    (hfs : fs = 54 + data.length + h.toNat * pad) (hfs32 : fs < 2 ^ 32)
    (hdl : data.length = w.toNat * h.toNat * 3) :
    BMP.read (fileHeaderBytes ⟨0x4D42, fs, 0, 0, 54⟩ ++
        (infoHeaderBytes ⟨40, w, h, 1, 24, 0, 0, 0, 0, 0, 0⟩ ++
          writeRows data (w.toNat * 3) pad h.toNat)) =
      some ([], ⟨⟨0x4D42, fs, 0, 0, 54⟩, ⟨40, w, h, 1, 24, 0, 0, 0, 0, 0, 0⟩,
        defaultColorHeader, data, 3, w.toNat * 3⟩) := by
  have hrows : data.length = w.toNat * 3 * h.toNat := by rw [hdl]; ring
  have hwl : (writeRows data (w.toNat * 3) pad h.toNat).length = h.toNat * (w.toNat * 3 + pad) :=
    writeRows_length data (w.toNat * 3) pad h.toNat (by omega) h.toNat le_rfl
  have hlenB : (fileHeaderBytes ⟨0x4D42, fs, 0, 0, 54⟩ ++
      (infoHeaderBytes ⟨40, w, h, 1, 24, 0, 0, 0, 0, 0, 0⟩ ++
        writeRows data (w.toNat * 3) pad h.toNat)).length =
      54 + h.toNat * (w.toNat * 3 + pad) := by
    simp only [List.length_append, fileHeaderBytes_length, infoHeaderBytes_length, hwl]
    omega
  have hslice1 : (fileHeaderBytes ⟨0x4D42, fs, 0, 0, 54⟩ ++
      (infoHeaderBytes ⟨40, w, h, 1, 24, 0, 0, 0, 0, 0, 0⟩ ++
        writeRows data (w.toNat * 3) pad h.toNat)).take 14 =
      fileHeaderBytes ⟨0x4D42, fs, 0, 0, 54⟩ := by rfl
  have hslice2 : ((fileHeaderBytes ⟨0x4D42, fs, 0, 0, 54⟩ ++
      (infoHeaderBytes ⟨40, w, h, 1, 24, 0, 0, 0, 0, 0, 0⟩ ++
        writeRows data (w.toNat * 3) pad h.toNat)).drop 14).take 40 =
      infoHeaderBytes ⟨40, w, h, 1, 24, 0, 0, 0, 0, 0, 0⟩ := by rfl
  have hP1 : parseFileHeader ((fileHeaderBytes ⟨0x4D42, fs, 0, 0, 54⟩ ++
      (infoHeaderBytes ⟨40, w, h, 1, 24, 0, 0, 0, 0, 0, 0⟩ ++
        writeRows data (w.toNat * 3) pad h.toNat)).take 14) = ⟨0x4D42, fs, 0, 0, 54⟩ := by
    rw [hslice1]
    exact parseFileHeader_roundtrip 0x4D42 fs 0 0 54 (by omega) (by omega) (by omega)
      (by omega) (by omega)
  have hP2 : parseInfoHeader (((fileHeaderBytes ⟨0x4D42, fs, 0, 0, 54⟩ ++
      (infoHeaderBytes ⟨40, w, h, 1, 24, 0, 0, 0, 0, 0, 0⟩ ++
        writeRows data (w.toNat * 3) pad h.toNat)).drop 14).take 40) =
      ⟨40, w, h, 1, 24, 0, 0, 0, 0, 0, 0⟩ := by
    rw [hslice2]
    exact parseInfoHeader_roundtrip 40 w h 1 24 0 0 0 0 0 0 (by omega) (by omega) (by omega)
      (by omega) (by omega) (by omega) (by omega) (by omega) (by omega) (by omega) (by omega)
      (by omega) (by omega) (by omega) (by omega)
  have hds : ((w * h * ((24 : Nat) : Int)) / 8).toNat = data.length := by
    have e : w * h * ((24 : Nat) : Int) = (w * h * 3) * 8 := by push_cast; ring
    rw [e, Int.mul_ediv_cancel _ (by omega)]
    obtain ⟨wn, rfl⟩ : ∃ n : Nat, w = (n : Int) := ⟨w.toNat, (Int.toNat_of_nonneg (by omega)).symm⟩
    obtain ⟨hn, rfl⟩ : ∃ n : Nat, h = (n : Int) := ⟨h.toNat, (Int.toNat_of_nonneg (by omega)).symm⟩
    rw [hdl]
    simp only [Int.toNat_natCast]
    omega
  have hrs : ((w * ((24 : Nat) : Int)) / 8).toNat = w.toNat * 3 := by
    have e : w * ((24 : Nat) : Int) = (w * 3) * 8 := by push_cast; ring
    rw [e, Int.mul_ediv_cancel _ (by omega)]
    omega
  have hg1 : (14 + 40 : Nat) ≤ 54 + h.toNat * (w.toNat * 3 + pad) := by omega
  have hneg : ¬(h < 0) := by omega
  have hrr : readRows (fileHeaderBytes ⟨0x4D42, fs, 0, 0, 54⟩ ++
      (infoHeaderBytes ⟨40, w, h, 1, 24, 0, 0, 0, 0, 0, 0⟩ ++
        writeRows data (w.toNat * 3) pad h.toNat)) 54 (w.toNat * 3) pad h.toNat =
      some data := by
    have hassoc : fileHeaderBytes ⟨0x4D42, fs, 0, 0, 54⟩ ++
        (infoHeaderBytes ⟨40, w, h, 1, 24, 0, 0, 0, 0, 0, 0⟩ ++
          writeRows data (w.toNat * 3) pad h.toNat) =
        (fileHeaderBytes ⟨0x4D42, fs, 0, 0, 54⟩ ++
          infoHeaderBytes ⟨40, w, h, 1, 24, 0, 0, 0, 0, 0, 0⟩) ++
          writeRows data (w.toNat * 3) pad h.toNat := by
      simp [List.append_assoc]
    have hplen : (fileHeaderBytes ⟨0x4D42, fs, 0, 0, 54⟩ ++
        infoHeaderBytes ⟨40, w, h, 1, 24, 0, 0, 0, 0, 0, 0⟩).length = 54 := by
      simp [List.length_append, fileHeaderBytes_length, infoHeaderBytes_length]
    have hc := readRows_writeRows (fileHeaderBytes ⟨0x4D42, fs, 0, 0, 54⟩ ++
        infoHeaderBytes ⟨40, w, h, 1, 24, 0, 0, 0, 0, 0, 0⟩) data (w.toNat * 3) pad h.toNat
        hrows h.toNat le_rfl
    rw [hplen] at hc
    have ht : data.take (w.toNat * 3 * h.toNat) = data := by
      rw [← hrows]
      exact List.take_length data
    rw [ht] at hc
    rw [hassoc]
    exact hc
  have hfsm : (14 + 40 + data.length + h.toNat * pad) % 2 ^ 32 = fs := by omega
  simp only [BMP.read, hlenB, hP1, hP2, hds, hrs, hg1, hneg, hw4, if_true, if_false,
    ite_true, ite_false, le_refl, List.append_nil, List.nil_append, ← hpad, hrr, hfsm]
  norm_num
  omega
/-- C4: for every canonically normalized 24- or 32-bit image,
`read (write s)` succeeds with no diagnostics and returns an image with
identical header fields, color header, channel count and pixel buffer
bytes.  (The private `row_stride` scratch member is not part of the
claim; `read` leaves it 0 on the unpadded path.) -/
theorem decode_encode_roundtrip (s : BMP) (hc : Canonical s) :
    ∃ t, BMP.read (BMP.write s) = some ([], t) ∧
      t.file_header = s.file_header ∧ t.bmp_info_header = s.bmp_info_header ∧
      t.bmp_color_header = s.bmp_color_header ∧ t.data = s.data ∧
      t.channels = s.channels := by
  obtain ⟨⟨ft, fs, r1, r2, off⟩, ⟨sz, w, h, pl, bc, cp, si, xp, yp, cu, ci⟩,
    chd, data, chn, rs⟩ := s
  obtain ⟨h1, h2, h3, h4, h5, h6, h7, h8, h9, h10, h11, h12, h13, h14, h15, h16, h17,
    h18, hbranch⟩ := hc
  simp only at h1 h2 h3 h4 h5 h6 h7 h8 h9 h10 h11 h12 h13 h14 h15 h16 h17 h18 hbranch
  subst h6 h7 h8 h9 h10 h11 h12 h13 h14 h15
  rcases hbranch with ⟨hbc, hcp, hsz, hoff, hfs⟩ | ⟨hbc, hcp, hsz, hoff, hfs⟩
  · -- 32-bit
    subst hbc hcp hsz hoff
    have hchn : chn = 4 := by omega
    subst hchn
    have hlen8 : data.length * 8 = w.toNat * h.toNat * 32 := by
      rw [h18]
      ring
    have hb32 : w.toNat * h.toNat * 32 < 2 ^ 31 := by
      obtain ⟨wn, rfl⟩ : ∃ n : Nat, w = (n : Int) :=
        ⟨w.toNat, (Int.toNat_of_nonneg (by omega)).symm⟩
      obtain ⟨hn, rfl⟩ : ∃ n : Nat, h = (n : Int) :=
        ⟨h.toNat, (Int.toNat_of_nonneg (by omega)).symm⟩
      simp only [Int.toNat_natCast]
      exact_mod_cast h5
    have hfs32 : fs < 2 ^ 32 := by omega
    have hwrite : BMP.write ⟨⟨0x4D42, fs, 0, 0, 138⟩, ⟨124, w, h, 1, 32, 3, 0, 0, 0, 0, 0⟩,
        defaultColorHeader, data, 4, rs⟩ =
        fileHeaderBytes ⟨0x4D42, fs, 0, 0, 138⟩ ++
          (infoHeaderBytes ⟨124, w, h, 1, 32, 3, 0, 0, 0, 0, 0⟩ ++
            (colorHeaderBytes defaultColorHeader ++ data)) := by
      simp [BMP.write, writeHeaders, List.append_assoc]
    rw [hwrite, read_layout32 fs w h data h1 h3 h2 h4 hfs hfs32 h18]
    exact ⟨_, rfl, rfl, rfl, rfl, rfl, rfl⟩
  · -- 24-bit
    subst hbc hcp hsz hoff
    have hchn : chn = 3 := by omega
    subst hchn
    have hrs3 : rs = w.toNat * 3 := by omega
    subst hrs3
    have hlen8 : data.length * 8 = w.toNat * h.toNat * 24 := by
      rw [h18]
      ring
    have hb24 : w.toNat * h.toNat * 24 < 2 ^ 31 := by
      obtain ⟨wn, rfl⟩ : ∃ n : Nat, w = (n : Int) :=
        ⟨w.toNat, (Int.toNat_of_nonneg (by omega)).symm⟩
      obtain ⟨hn, rfl⟩ : ∃ n : Nat, h = (n : Int) :=
        ⟨h.toNat, (Int.toNat_of_nonneg (by omega)).symm⟩
      simp only [Int.toNat_natCast]
      exact_mod_cast h5
    have hpadle : make_stride_aligned (w.toNat * 3) 4 - w.toNat * 3 ≤ 3 := by
      unfold make_stride_aligned
      omega
    have hhle : h.toNat ≤ w.toNat * h.toNat * 3 := by
      have hw1 : 1 ≤ w.toNat := by omega
      have := Nat.mul_le_mul_right (h.toNat * 3) hw1
      have e1 : 1 * (h.toNat * 3) = h.toNat * 3 := by ring
      have e2 : w.toNat * (h.toNat * 3) = w.toNat * h.toNat * 3 := by ring
      omega
    have hfs32 : fs < 2 ^ 32 := by
      have h3h : h.toNat * (make_stride_aligned (w.toNat * 3) 4 - w.toNat * 3) ≤
          h.toNat * 3 := Nat.mul_le_mul_left h.toNat hpadle
      omega
    by_cases hw4 : w % 4 = 0
    · have hpad0 : make_stride_aligned (w.toNat * 3) 4 - w.toNat * 3 = 0 := by
        have hw4n : w.toNat % 4 = 0 := by omega
        unfold make_stride_aligned
        omega
      have hwrite : BMP.write ⟨⟨0x4D42, fs, 0, 0, 54⟩, ⟨40, w, h, 1, 24, 0, 0, 0, 0, 0, 0⟩,
          defaultColorHeader, data, 3, w.toNat * 3⟩ =
          fileHeaderBytes ⟨0x4D42, fs, 0, 0, 54⟩ ++
            (infoHeaderBytes ⟨40, w, h, 1, 24, 0, 0, 0, 0, 0, 0⟩ ++ data) := by
        simp [BMP.write, writeHeaders, List.append_assoc, hw4]
      rw [hpad0, Nat.mul_zero, Nat.add_zero] at hfs
      rw [hwrite, read_layout24_aligned fs w h data h1 h3 h2 h4 hw4 hfs hfs32 h18]
      exact ⟨_, rfl, rfl, rfl, rfl, rfl, rfl⟩
    · have hwrite : BMP.write ⟨⟨0x4D42, fs, 0, 0, 54⟩, ⟨40, w, h, 1, 24, 0, 0, 0, 0, 0, 0⟩,
          defaultColorHeader, data, 3, w.toNat * 3⟩ =
          fileHeaderBytes ⟨0x4D42, fs, 0, 0, 54⟩ ++
            (infoHeaderBytes ⟨40, w, h, 1, 24, 0, 0, 0, 0, 0, 0⟩ ++
              writeRows data (w.toNat * 3)
                (make_stride_aligned (w.toNat * 3) 4 - w.toNat * 3) h.toNat) := by
        simp [BMP.write, writeHeaders, List.append_assoc, hw4]
      rw [hwrite, read_layout24_padded fs w h data
        (make_stride_aligned (w.toNat * 3) 4 - w.toNat * 3) h1 h3 h2 h4 hw4 rfl hfs hfs32 h18]
      exact ⟨_, rfl, rfl, rfl, rfl, rfl, rfl⟩

/-- C4 witness: the round trip evaluated on a concrete canonical 3×2
24-bit image (width not a multiple of 4, so the padded path is taken). -/
theorem decode_encode_roundtrip_witness :
    Canonical (mkBMP 3 2 false).2 ∧
      ∃ t, BMP.read (BMP.write (mkBMP 3 2 false).2) = some ([], t) ∧
        t.file_header = (mkBMP 3 2 false).2.file_header ∧
        t.bmp_info_header = (mkBMP 3 2 false).2.bmp_info_header ∧
        t.bmp_color_header = (mkBMP 3 2 false).2.bmp_color_header ∧
        t.data = (mkBMP 3 2 false).2.data ∧
        t.channels = (mkBMP 3 2 false).2.channels :=
  ⟨by decide, decode_encode_roundtrip (mkBMP 3 2 false).2 (by decide)⟩
